import Mathlib

/-!
Verification of the virtual terminal emulation and output batching engine of
the slack-terminal repository, translated from
src/terminal/terminal-renderer.ts and src/terminal/output-capture.ts.

Modelling conventions:
* Strings are modelled as List Char, processed one UTF-16-style unit at a
  time, exactly as the JavaScript code indexes data[i].  All cursor and size
  arithmetic is on Nat; the JavaScript expressions Math.max(0, a - b) and
  a - b on in-range values coincide with truncated Nat subtraction.
* JavaScript array writes a[i] = v with i < a.length are List.set; the code
  only performs guarded in-range writes except in eraseChars and deleteChars,
  which dereference this.buffer[this.cursorY] without a bounds check.  There
  a JavaScript TypeError is possible, so those two operations, and everything
  that can reach them, return Except Unit; .error models the thrown
  exception.
* setTimeout and clearTimeout are modelled by an explicit TimerSys state: a
  counter of allocated timer ids plus the list of ids currently scheduled.
-/

namespace SlackTerm

/-- Screen buffer and cursor state of class TerminalRenderer
(terminal-renderer.ts lines 24-40). -/
structure TerminalRenderer where
  cols : Nat
  rows : Nat
  buffer : List (List Char)
  cursorX : Nat
  cursorY : Nat
  savedCursorX : Nat
  savedCursorY : Nat
  scrollTop : Nat
  scrollBottom : Nat
deriving DecidableEq, Repr

/-- A row of cols blank cells, as produced by the renderer when it allocates
fresh lines. -/
def blankRow (cols : Nat) : List Char := List.replicate cols ' '

/-- The whitespace set of JavaScript String.prototype.trimEnd. -/
def isJsSpace (c : Char) : Bool :=
  decide (c.val = 0x20 ∨ c.val = 0x09 ∨ c.val = 0x0a ∨ c.val = 0x0b ∨ c.val = 0x0c ∨
    c.val = 0x0d ∨ c.val = 0xa0 ∨ c.val = 0x1680 ∨ (0x2000 ≤ c.val ∧ c.val ≤ 0x200a) ∨
    c.val = 0x2028 ∨ c.val = 0x2029 ∨ c.val = 0x202f ∨ c.val = 0x205f ∨ c.val = 0x3000 ∨
    c.val = 0xfeff)

/-- row.join trailed by trimEnd, on one row. -/
def trimEnd (l : List Char) : List Char := (l.reverse.dropWhile isJsSpace).reverse

/-- The while-pop loop of getScreen: remove trailing empty lines. -/
def dropTrailingEmpties (ls : List (List Char)) : List (List Char) :=
  (ls.reverse.dropWhile List.isEmpty).reverse

/-- createEmptyBuffer plus the constructor defaults of TerminalRenderer. -/
def mkRenderer (cols rows : Nat) : TerminalRenderer :=
  { cols := cols
    rows := rows
    buffer := List.replicate rows (blankRow cols)
    cursorX := 0
    cursorY := 0
    savedCursorX := 0
    savedCursorY := 0
    scrollTop := 0
    scrollBottom := rows - 1 }

namespace TerminalRenderer

/-- scrollUp: shift rows scrollTop..scrollBottom-1 up by one, blank row at
scrollBottom. -/
def scrollUp (st : TerminalRenderer) : TerminalRenderer :=
  let buf := (List.range' st.scrollTop (st.scrollBottom - st.scrollTop)).foldl
    (fun b y => b.set y (b.getD (y + 1) [])) st.buffer
  { st with buffer := buf.set st.scrollBottom (blankRow st.cols) }

/-- scrollDown: shift rows scrollTop..scrollBottom-1 down by one (loop runs
from scrollBottom down to scrollTop+1), blank row at scrollTop. -/
def scrollDown (st : TerminalRenderer) : TerminalRenderer :=
  let buf := ((List.range' (st.scrollTop + 1) (st.scrollBottom - st.scrollTop)).reverse).foldl
    (fun b y => b.set y (b.getD (y - 1) [])) st.buffer
  { st with buffer := buf.set st.scrollTop (blankRow st.cols) }

/-- lineFeed. -/
def lineFeed (st : TerminalRenderer) : TerminalRenderer :=
  if st.scrollBottom ≤ st.cursorY then scrollUp st
  else { st with cursorY := st.cursorY + 1 }

/-- putChar: auto-wrap when the column is past the right edge, then write the
cell if in bounds, then advance the column. -/
def putChar (st : TerminalRenderer) (c : Char) : TerminalRenderer :=
  let st := if st.cols ≤ st.cursorX then lineFeed { st with cursorX := 0 } else st
  let st :=
    if st.cursorY < st.rows ∧ st.cursorX < st.cols then
      { st with buffer := st.buffer.set st.cursorY ((st.buffer.getD st.cursorY []).set st.cursorX c) }
    else st
  { st with cursorX := st.cursorX + 1 }

/-- clearLine: blank columns startX..min endX cols - 1 of row y, no-op when y
is out of range (the source checks y against rows). -/
def clearLine (st : TerminalRenderer) (y startX endX : Nat) : TerminalRenderer :=
  if y < st.rows then
    { st with buffer := (st.buffer.set y
        ((List.range' startX (min endX st.cols - startX)).foldl
          (fun r x => r.set x ' ') (st.buffer.getD y []))) }
  else st

/-- eraseInDisplay. -/
def eraseInDisplay (st : TerminalRenderer) (mode : Nat) : TerminalRenderer :=
  match mode with
  | 0 =>
    let st := clearLine st st.cursorY st.cursorX st.cols
    (List.range' (st.cursorY + 1) (st.rows - (st.cursorY + 1))).foldl
      (fun s y => clearLine s y 0 s.cols) st
  | 1 =>
    let st := (List.range st.cursorY).foldl (fun s y => clearLine s y 0 s.cols) st
    clearLine st st.cursorY 0 (st.cursorX + 1)
  | 2 => (List.range st.rows).foldl (fun s y => clearLine s y 0 s.cols) st
  | 3 => (List.range st.rows).foldl (fun s y => clearLine s y 0 s.cols) st
  | _ => st

/-- eraseInLine. -/
def eraseInLine (st : TerminalRenderer) (mode : Nat) : TerminalRenderer :=
  match mode with
  | 0 => clearLine st st.cursorY st.cursorX st.cols
  | 1 => clearLine st st.cursorY 0 (st.cursorX + 1)
  | 2 => clearLine st st.cursorY 0 st.cols
  | _ => st

/-- eraseChars: the source writes this.buffer[this.cursorY][this.cursorX + i]
with no bounds check on cursorY; when the loop body runs at all (count ≥ 1
and cursorX < cols) and cursorY is past the end of the buffer, the JavaScript
code throws a TypeError, modelled as .error. -/
def eraseChars (st : TerminalRenderer) (count : Nat) : Except Unit TerminalRenderer :=
  if 1 ≤ count ∧ st.cursorX < st.cols ∧ st.buffer.length ≤ st.cursorY then .error ()
  else .ok { st with buffer := (st.buffer.set st.cursorY
      ((List.range' st.cursorX (min count (st.cols - st.cursorX))).foldl
        (fun r x => r.set x ' ') (st.buffer.getD st.cursorY []))) }

/-- deleteChars: same unguarded row dereference as eraseChars (the row is read
before the loop, and read again inside it).  The loop reads row[x + count]
ahead of the write position; since its only caller passes count ≥ 1 the reads
are always ahead of every write, which the left-to-right fold reproduces. -/
def deleteChars (st : TerminalRenderer) (count : Nat) : Except Unit TerminalRenderer :=
  if st.cursorX < st.cols ∧ st.buffer.length ≤ st.cursorY then .error ()
  else .ok { st with buffer := (st.buffer.set st.cursorY
      ((List.range' st.cursorX (st.cols - st.cursorX)).foldl
        (fun r x => r.set x (if x + count < st.cols then r.getD (x + count) ' ' else ' '))
        (st.buffer.getD st.cursorY []))) }

/-- One iteration of the insertLines outer loop: shift rows cursorY..
scrollBottom-1 down (loop from scrollBottom down to cursorY+1), blank row at
cursorY. -/
def insertLineOnce (st : TerminalRenderer) : TerminalRenderer :=
  let buf := ((List.range' (st.cursorY + 1) (st.scrollBottom - st.cursorY)).reverse).foldl
    (fun b y => b.set y (b.getD (y - 1) [])) st.buffer
  { st with buffer := buf.set st.cursorY (blankRow st.cols) }

/-- insertLines. -/
def insertLines (st : TerminalRenderer) : Nat → TerminalRenderer
  | 0 => st
  | n + 1 => insertLines (insertLineOnce st) n

/-- One iteration of the deleteLines outer loop: shift rows cursorY+1..
scrollBottom up, blank row at scrollBottom. -/
def deleteLineOnce (st : TerminalRenderer) : TerminalRenderer :=
  let buf := (List.range' st.cursorY (st.scrollBottom - st.cursorY)).foldl
    (fun b y => b.set y (b.getD (y + 1) [])) st.buffer
  { st with buffer := buf.set st.scrollBottom (blankRow st.cols) }

/-- deleteLines. -/
def deleteLines (st : TerminalRenderer) : Nat → TerminalRenderer
  | 0 => st
  | n + 1 => deleteLines (deleteLineOnce st) n

/-- iterated scrollUp, for CSI S. -/
def scrollUpN (st : TerminalRenderer) : Nat → TerminalRenderer
  | 0 => st
  | n + 1 => scrollUpN (scrollUp st) n

/-- iterated scrollDown, for CSI T. -/
def scrollDownN (st : TerminalRenderer) : Nat → TerminalRenderer
  | 0 => st
  | n + 1 => scrollDownN (scrollDown st) n

/-- reset: fresh blank buffer, cursor at origin, full-screen scroll region.
The saved cursor is not touched, exactly as in the source. -/
def reset (st : TerminalRenderer) : TerminalRenderer :=
  { st with buffer := List.replicate st.rows (blankRow st.cols)
            cursorX := 0
            cursorY := 0
            scrollTop := 0
            scrollBottom := st.rows - 1 }

/-- JavaScript parseInt on a run of CSI parameter bytes, with || 0 applied:
value of the leading digits, 0 when there are none. -/
def parseIntOr0 (s : List Char) : Nat :=
  (s.takeWhile Char.isDigit).foldl (fun n c => 10 * n + (c.toNat - 48)) 0

/-- numParams[i] || dflt: JavaScript treats a missing entry and the value 0
as falsy. -/
def getParam (np : List Nat) (i dflt : Nat) : Nat :=
  match np.getD i 0 with
  | 0 => dflt
  | v + 1 => v + 1

/-- Dispatch on the CSI final byte (parseCSI switch). -/
def applyCSI (st : TerminalRenderer) (params : List Char) (finalByte : Char) :
    Except Unit TerminalRenderer :=
  let numParams := (params.splitOn ';').map parseIntOr0
  match finalByte with
  | 'A' => .ok { st with cursorY := st.cursorY - getParam numParams 0 1 }
  | 'B' => .ok { st with cursorY := min (st.rows - 1) (st.cursorY + getParam numParams 0 1) }
  | 'C' => .ok { st with cursorX := min (st.cols - 1) (st.cursorX + getParam numParams 0 1) }
  | 'D' => .ok { st with cursorX := st.cursorX - getParam numParams 0 1 }
  | 'E' => .ok { st with cursorX := 0
                         cursorY := min (st.rows - 1) (st.cursorY + getParam numParams 0 1) }
  | 'F' => .ok { st with cursorX := 0, cursorY := st.cursorY - getParam numParams 0 1 }
  | 'G' => .ok { st with cursorX := min (st.cols - 1) (getParam numParams 0 1 - 1) }
  | 'H' => .ok { st with cursorY := min (st.rows - 1) (getParam numParams 0 1 - 1)
                         cursorX := min (st.cols - 1) (getParam numParams 1 1 - 1) }
  | 'f' => .ok { st with cursorY := min (st.rows - 1) (getParam numParams 0 1 - 1)
                         cursorX := min (st.cols - 1) (getParam numParams 1 1 - 1) }
  | 'J' => .ok (eraseInDisplay st (numParams.getD 0 0))
  | 'K' => .ok (eraseInLine st (numParams.getD 0 0))
  | 'L' => .ok (insertLines st (getParam numParams 0 1))
  | 'M' => .ok (deleteLines st (getParam numParams 0 1))
  | 'P' => deleteChars st (getParam numParams 0 1)
  | 'S' => .ok (scrollUpN st (getParam numParams 0 1))
  | 'T' => .ok (scrollDownN st (getParam numParams 0 1))
  | 'X' => eraseChars st (getParam numParams 0 1)
  | 'd' => .ok { st with cursorY := min (st.rows - 1) (getParam numParams 0 1 - 1) }
  | 'r' => .ok { st with scrollTop := getParam numParams 0 1 - 1
                         scrollBottom := min (st.rows - 1) (getParam numParams 1 st.rows - 1)
                         cursorX := 0
                         cursorY := 0 }
  | 's' => .ok { st with savedCursorX := st.cursorX, savedCursorY := st.cursorY }
  | 'u' => .ok { st with cursorX := st.savedCursorX, cursorY := st.savedCursorY }
  | _ => .ok st

/-- parseCSI on the characters following ESC [ : collect parameter bytes
0x30-0x3F, skip intermediate bytes 0x20-0x2F, then dispatch on the final
byte; an exhausted input consumes everything. -/
def parseCSI (st : TerminalRenderer) (l : List Char) :
    Except Unit (TerminalRenderer × List Char) :=
  match (l.dropWhile fun c => decide ('0' ≤ c ∧ c ≤ '?')).dropWhile
      (fun c => decide (' ' ≤ c ∧ c ≤ '/')) with
  | [] => .ok (st, [])
  | f :: rest =>
    match applyCSI st (l.takeWhile fun c => decide ('0' ≤ c ∧ c ≤ '?')) f with
    | .error e => .error e
    | .ok st' => .ok (st', rest)

/-- parseOSC on the characters following ESC ] : consume up to and including
BEL or ESC backslash; an unterminated sequence consumes everything. -/
def parseOSC : List Char → List Char
  | [] => []
  | c :: rest =>
    if c = '\x07' then rest
    else if c = '\x1b' then
      match rest with
      | '\\' :: r2 => r2
      | _ => parseOSC rest
    else parseOSC rest

/-- parseEscapeSequence on the characters following ESC. -/
def parseEscapeSequence (st : TerminalRenderer) (l : List Char) :
    Except Unit (TerminalRenderer × List Char) :=
  match l with
  | [] => .ok (st, [])
  | c :: rest =>
    if c = '[' then parseCSI st rest
    else if c = ']' then .ok (st, parseOSC rest)
    else if c = '7' then
      .ok ({ st with savedCursorX := st.cursorX, savedCursorY := st.cursorY }, rest)
    else if c = '8' then
      .ok ({ st with cursorX := st.savedCursorX, cursorY := st.savedCursorY }, rest)
    else if c = 'D' then .ok (lineFeed st, rest)
    else if c = 'M' then
      .ok ((if st.scrollTop < st.cursorY then { st with cursorY := st.cursorY - 1 } else st), rest)
    else if c = 'c' then .ok (reset st, rest)
    else .ok (st, rest)

/-- The write loop, totalized with fuel.  Each step consumes at least one
character, so fuel = remaining length never runs out; writeGoFuelIrrel below
makes the fuel irrelevant. -/
def writeGo : Nat → TerminalRenderer → List Char → Except Unit TerminalRenderer
  | 0, st, _ => .ok st
  | _ + 1, st, [] => .ok st
  | fuel + 1, st, c :: rest =>
    if c = '\x1b' then
      match parseEscapeSequence st rest with
      | .error e => .error e
      | .ok (st', rest') => writeGo fuel st' rest'
    else if c = '\r' then writeGo fuel { st with cursorX := 0 } rest
    else if c = '\n' then writeGo fuel (lineFeed st) rest
    else if c = '\x08' then
      writeGo fuel (if 0 < st.cursorX then { st with cursorX := st.cursorX - 1 } else st) rest
    else if c = '\t' then
      writeGo fuel { st with cursorX := min (st.cols - 1) ((st.cursorX / 8 + 1) * 8) } rest
    else if ' ' ≤ c then writeGo fuel (putChar st c) rest
    else writeGo fuel st rest

/-- write(data): process the stream left to right. -/
def write (st : TerminalRenderer) (data : List Char) : Except Unit TerminalRenderer :=
  writeGo data.length st data

/-- getScreen: each visible row right-trimmed, trailing empty rows removed,
joined with newlines. -/
def getScreen (st : TerminalRenderer) : List Char :=
  List.intercalate ['\n']
    (dropTrailingEmpties ((List.range st.rows).map fun y => trimEnd (st.buffer.getD y [])))

/-- clear() delegates to reset. -/
def clear (st : TerminalRenderer) : TerminalRenderer := reset st

/-- resize: fresh grid with the overlapping top-left content copied, cursor
clamped into the new bounds, scrollBottom reset.  Neither scrollTop nor the
saved cursor is touched, exactly as in the source. -/
def resize (st : TerminalRenderer) (cols rows : Nat) : TerminalRenderer :=
  { st with
    cols := cols
    rows := rows
    buffer := (List.range rows).map fun y =>
      (List.range cols).map fun x =>
        if y < st.rows ∧ x < st.cols then (st.buffer.getD y []).getD x ' ' else ' '
    cursorX := min st.cursorX (cols - 1)
    cursorY := min st.cursorY (rows - 1)
    scrollBottom := rows - 1 }

end TerminalRenderer

/-- Extract the success value of an Except, with a fallback; used only to
name concrete computed states inside theorem statements. -/
def okD {α : Type} (e : Except Unit α) (dflt : α) : α :=
  match e with
  | .ok a => a
  | .error _ => dflt

/-- The runtime timer table behind setTimeout and clearTimeout: the next
fresh timer id and the ids currently scheduled. -/
structure TimerSys where
  nextId : Nat
  active : List Nat
deriving DecidableEq, Repr

/-- setTimeout: allocate a fresh timer id and schedule it. -/
def setTimeout (ts : TimerSys) : Nat × TimerSys :=
  (ts.nextId, { nextId := ts.nextId + 1, active := ts.nextId :: ts.active })

/-- clearTimeout: cancel a scheduled timer. -/
def clearTimeout (ts : TimerSys) (tid : Nat) : TimerSys :=
  { ts with active := ts.active.filter fun i => i != tid }

/-- The emission object of output-capture.ts (interface BatchedOutput). -/
structure BatchedOutput where
  text : List Char
  truncated : Bool
  fullText : Option (List Char)
  threadId : String
deriving DecidableEq, Repr

/-- State of class TerminalOutputBuffer (output-capture.ts lines 42-58). -/
structure TerminalOutputBuffer where
  threadId : String
  batchDelayMs : Nat
  truncateAt : Nat
  buffer : List Char
  batchTimer : Option Nat
  lastTruncatedOutput : Option (List Char)
  lastSentScreen : List Char
  renderer : TerminalRenderer
deriving DecidableEq, Repr

/-- The TerminalOutputBuffer constructor: empty state plus a fresh 120 by 50
renderer. -/
def mkOutputBuffer (threadId : String) (batchDelayMs truncateAt : Nat) :
    TerminalOutputBuffer :=
  { threadId := threadId
    batchDelayMs := batchDelayMs
    truncateAt := truncateAt
    buffer := []
    batchTimer := none
    lastTruncatedOutput := none
    lastSentScreen := []
    renderer := mkRenderer 120 50 }

namespace TerminalOutputBuffer

/-- The truncation suffix appended in emitBatch. -/
def moreMarker (n : Nat) : List Char :=
  "\n\n... (".toList ++ (Nat.repr n).toList ++ " more characters, use /more for full output)".toList

/-- scheduleBatch: schedule a timer only when none is pending. -/
def scheduleBatch (ts : TimerSys) (st : TerminalOutputBuffer) :
    TimerSys × TerminalOutputBuffer :=
  match st.batchTimer with
  | some _ => (ts, st)
  | none =>
    let p := setTimeout ts
    (p.2, { st with batchTimer := some p.1 })

/-- append: extend the raw buffer, feed the renderer eagerly, schedule a
batch.  A renderer write that throws aborts the call. -/
def append (ts : TimerSys) (st : TerminalOutputBuffer) (data : List Char) :
    Except Unit (TimerSys × TerminalOutputBuffer) :=
  match TerminalRenderer.write st.renderer data with
  | .error e => .error e
  | .ok r => .ok (scheduleBatch ts { st with buffer := st.buffer ++ data, renderer := r })

/-- emitBatch: empty-buffer guard, raw buffer reset, empty-screen guard,
duplicate-screen guard, then the emission, truncated when over the limit. -/
def emitBatch (st : TerminalOutputBuffer) : TerminalOutputBuffer × Option BatchedOutput :=
  if st.buffer.isEmpty then (st, none)
  else
    let st1 := { st with buffer := [] }
    let renderedText := st.renderer.getScreen
    if renderedText.isEmpty then (st1, none)
    else if renderedText = st.lastSentScreen then (st1, none)
    else
      let st2 := { st1 with lastSentScreen := renderedText }
      if renderedText.length ≤ st.truncateAt then
        (st2, some { text := renderedText, truncated := false, fullText := none,
                     threadId := st.threadId })
      else
        ({ st2 with lastTruncatedOutput := some renderedText },
         some { text := renderedText.take st.truncateAt ++
                  moreMarker (renderedText.length - st.truncateAt)
                truncated := true
                fullText := some renderedText
                threadId := st.threadId })

/-- flush: cancel a pending timer, then emit when raw bytes are pending. -/
def flush (ts : TimerSys) (st : TerminalOutputBuffer) :
    TimerSys × TerminalOutputBuffer × Option BatchedOutput :=
  let p := match st.batchTimer with
    | some tid => (clearTimeout ts tid, { st with batchTimer := none })
    | none => (ts, st)
  if p.2.buffer.isEmpty then (p.1, p.2, none)
  else
    let q := emitBatch p.2
    (p.1, q.1, q.2)

/-- The scheduled timer fires: it leaves the timer table, batchTimer is
nulled, emitBatch runs. -/
def fireTimer (ts : TimerSys) (st : TerminalOutputBuffer) :
    TimerSys × TerminalOutputBuffer × Option BatchedOutput :=
  match st.batchTimer with
  | some tid =>
    let q := emitBatch { st with batchTimer := none }
    (clearTimeout ts tid, q.1, q.2)
  | none => (ts, st, none)

/-- getLastTruncatedOutput. -/
def getLastTruncatedOutput (st : TerminalOutputBuffer) : Option (List Char) :=
  st.lastTruncatedOutput

/-- clearLastTruncatedOutput. -/
def clearLastTruncatedOutput (st : TerminalOutputBuffer) : TerminalOutputBuffer :=
  { st with lastTruncatedOutput := none }

/-- clear: cancel the timer, drop all tracked state, reset the renderer. -/
def clear (ts : TimerSys) (st : TerminalOutputBuffer) : TimerSys × TerminalOutputBuffer :=
  let p := match st.batchTimer with
    | some tid => (clearTimeout ts tid, { st with batchTimer := none })
    | none => (ts, st)
  (p.1, { p.2 with buffer := [], lastTruncatedOutput := none, lastSentScreen := [],
                   renderer := p.2.renderer.clear })

end TerminalOutputBuffer

/-- Batcher states reachable through the public TerminalOutputBuffer API,
paired with the timer table. -/
inductive BatchReachable : TimerSys × TerminalOutputBuffer → Prop where
  | init (ts : TimerSys) (threadId : String) (batchDelayMs truncateAt : Nat) :
      BatchReachable (ts, mkOutputBuffer threadId batchDelayMs truncateAt)
  | step_append {p q : TimerSys × TerminalOutputBuffer} {data : List Char} :
      BatchReachable p → TerminalOutputBuffer.append p.1 p.2 data = .ok q →
      BatchReachable q
  | step_flush {p : TimerSys × TerminalOutputBuffer} : BatchReachable p →
      BatchReachable ((TerminalOutputBuffer.flush p.1 p.2).1,
        (TerminalOutputBuffer.flush p.1 p.2).2.1)
  | step_fire {p : TimerSys × TerminalOutputBuffer} : BatchReachable p →
      BatchReachable ((TerminalOutputBuffer.fireTimer p.1 p.2).1,
        (TerminalOutputBuffer.fireTimer p.1 p.2).2.1)
  | step_clear {p : TimerSys × TerminalOutputBuffer} : BatchReachable p →
      BatchReachable (TerminalOutputBuffer.clear p.1 p.2)
  | step_clearTrunc {p : TimerSys × TerminalOutputBuffer} : BatchReachable p →
      BatchReachable (p.1, TerminalOutputBuffer.clearLastTruncatedOutput p.2)

/-- Zero or more append calls on one batcher. -/
inductive AppendChain : TimerSys × TerminalOutputBuffer → TimerSys × TerminalOutputBuffer → Prop where
  | refl (p : TimerSys × TerminalOutputBuffer) : AppendChain p p
  | step {p q r : TimerSys × TerminalOutputBuffer} {data : List Char} :
      AppendChain p q → TerminalOutputBuffer.append q.1 q.2 data = .ok r →
      AppendChain p r

/-- State invariant of a batcher: whenever the raw buffer is empty, the
rendered screen is either empty or exactly the last sent screen.  It holds
in every reachable state because emitBatch clears the buffer and records
the rendered screen in the same step. -/
def BufInv (st : TerminalOutputBuffer) : Prop :=
  st.buffer = [] →
    st.renderer.getScreen = [] ∨ st.lastSentScreen = st.renderer.getScreen

/-- Association-list image of the Map of class OutputCapture; Map.set
replaces the value of an existing key and appends a new key. -/
def mapSet (m : List (String × TerminalOutputBuffer)) (k : String)
    (v : TerminalOutputBuffer) : List (String × TerminalOutputBuffer) :=
  if m.any fun p => p.1 == k then m.map fun p => if p.1 == k then (k, v) else p
  else m ++ [(k, v)]

/-- Map.get. -/
def mapGet (m : List (String × TerminalOutputBuffer)) (k : String) :
    Option TerminalOutputBuffer :=
  (m.find? fun p => p.1 == k).map fun p => p.2

/-- State of class OutputCapture that the registry claims touch. -/
structure OutputCapture where
  buffers : List (String × TerminalOutputBuffer)
  batchDelayMs : Nat
  truncateAt : Nat
deriving Repr

/-- startCapture: build a fresh batcher for the thread id and store it with
Map.set, unconditionally.  The returned list is every emission the call
produces (none), and the timer table is returned untouched: an existing
batcher for the same id is dropped without a final flush and without
clearTimeout on its pending timer. -/
def OutputCapture.startCapture (ts : TimerSys) (oc : OutputCapture) (threadId : String) :
    TimerSys × OutputCapture × List BatchedOutput :=
  (ts,
   { oc with buffers := (mapSet oc.buffers threadId
      (mkOutputBuffer threadId oc.batchDelayMs oc.truncateAt)) },
   [])

/-- Operations of the Screen Buffer public contract, for stating invariants
over arbitrary call sequences. -/
inductive Op where
  | wr (data : List Char)
  | clr
  | rsz (cols rows : Nat)
deriving DecidableEq, Repr

/-- Whether an operation is a resize. -/
def Op.isResize : Op → Bool
  | .rsz _ _ => true
  | _ => false

/-- Whether an operation, when it is a resize, requests at least one row. -/
def Op.goodResize : Op → Bool
  | .rsz _ rows => decide (1 ≤ rows)
  | _ => true

/-- Run one public operation. -/
def applyOp (st : TerminalRenderer) : Op → Except Unit TerminalRenderer
  | .wr data => st.write data
  | .clr => .ok st.clear
  | .rsz cols rows => .ok (st.resize cols rows)

/-- Run a sequence of public operations. -/
def runOps : TerminalRenderer → List Op → Except Unit TerminalRenderer
  | st, [] => .ok st
  | st, op :: rest =>
    match applyOp st op with
    | .error e => .error e
    | .ok st' => runOps st' rest

/-- A line padded with blanks to the full width of a row. -/
def padRow (cols : Nat) (l : List Char) : List Char :=
  l ++ List.replicate (cols - l.length) ' '

/-- A character the interpreter prints literally: at least the space
character (so in particular none of the control characters the write loop
intercepts), and a single UTF-16 unit, which is what the JavaScript code
indexes. -/
def GoodChar (c : Char) : Prop := ' ' ≤ c ∧ c.val < 65536

/-- A line that fits on one row and survives the right-trimming of getScreen
verbatim: non-empty, at most cols characters, printable, no trailing
whitespace. -/
def GoodLine (cols : Nat) (l : List Char) : Prop :=
  l ≠ [] ∧ l.length ≤ cols ∧ (∀ c ∈ l, GoodChar c) ∧ trimEnd l = l

instance (c : Char) : Decidable (GoodChar c) :=
  inferInstanceAs (Decidable (' ' ≤ c ∧ c.val < 65536))

instance (cols : Nat) (l : List Char) : Decidable (GoodLine cols l) :=
  inferInstanceAs
    (Decidable (l ≠ [] ∧ l.length ≤ cols ∧ (∀ c ∈ l, GoodChar c) ∧ trimEnd l = l))

/-- Renderer state between whole lines: full-screen scroll region, cursor in
column 0 under the lines written so far, the visible lines padded at the top
of the buffer and blank rows below. -/
def LineState (C R : Nat) (vs : List (List Char)) (st : TerminalRenderer) : Prop :=
  st.cols = C ∧ st.rows = R ∧ st.scrollTop = 0 ∧ st.scrollBottom = R - 1 ∧
  st.cursorX = 0 ∧ st.cursorY = vs.length ∧ vs.length ≤ R - 1 ∧
  st.buffer.length = R ∧
  ∀ y, y < R → st.buffer.getD y [] =
    if y < vs.length then padRow C (vs.getD y []) else blankRow C

/-- The visible lines after one more line is written: the new line enters at
the bottom and, when the screen is full, the oldest visible line scrolls
away. -/
def pushLine (R : Nat) (vs : List (List Char)) (l : List Char) : List (List Char) :=
  (vs ++ [l]).drop (vs.length + 1 - (R - 1))

/-- The raw stream for a list of lines, each terminated by CR LF. -/
def linesData : List (List Char) → List Char
  | [] => []
  | l :: rest => l ++ '\r' :: '\n' :: linesData rest

/-- Cursor, saved cursor and scroll bound ranges preserved by write and
clear on a positively sized screen. -/
def CursorInv (st : TerminalRenderer) : Prop :=
  1 ≤ st.cols ∧ 1 ≤ st.rows ∧ st.cursorX ≤ st.cols ∧ st.cursorY < st.rows ∧
  st.savedCursorX ≤ st.cols ∧ st.savedCursorY < st.rows ∧ st.scrollBottom < st.rows

/-- The part of the scroll-region invariant that survives every operation,
resize included. -/
def ScrollBtmInv (st : TerminalRenderer) : Prop :=
  1 ≤ st.rows ∧ st.scrollBottom < st.rows

/-- st' differs from st in the buffer only. -/
def BufOnly (st st' : TerminalRenderer) : Prop :=
  st' = { st with buffer := st'.buffer }

/-! ### Generic list lemmas -/

theorem getD_set_self {α : Type} (l : List α) (i : Nat) (a d : α) (h : i < l.length) :
    (l.set i a).getD i d = a := by
  rw [List.getD_eq_getElem _ _ (by simpa using h)]
  exact List.getElem_set_self (by simpa using h)

theorem getD_set_ne {α : Type} (l : List α) {i j : Nat} (a : α) (d : α) (h : i ≠ j) :
    (l.set i a).getD j d = l.getD j d := by
  by_cases hj : j < l.length
  · rw [List.getD_eq_getElem _ _ (by simpa using hj), List.getD_eq_getElem _ _ hj]
    exact List.getElem_set_ne h _
  · rw [List.getD_eq_default _ _ (by simpa using Nat.le_of_not_lt hj),
      List.getD_eq_default _ _ (Nat.le_of_not_lt hj)]

theorem set_getD_self {α : Type} : ∀ (l : List α) (i : Nat) (d : α), i < l.length →
    l.set i (l.getD i d) = l
  | [], i, d, h => by simp at h
  | x :: xs, 0, d, _ => rfl
  | x :: xs, i + 1, d, h => by
    rw [List.getD_cons_succ, List.set_cons_succ,
      set_getD_self xs i d (Nat.lt_of_succ_lt_succ h)]

theorem getD_append_left {α : Type} (l l' : List α) (d : α) (n : Nat) (h : n < l.length) :
    (l ++ l').getD n d = l.getD n d :=
  List.getD_append l l' d n h

theorem getD_replicate {α : Type} (a d : α) (n i : Nat) (h : i < n) :
    (List.replicate n a).getD i d = a := by
  rw [List.getD_eq_getElem _ _ (by simpa using h)]
  exact List.getElem_replicate _ _

/-- Frame property of an index-wise update loop: indices outside the fold
are untouched. -/
theorem foldl_set_getD_notMem {α : Type} (g : List α → Nat → α) :
    ∀ (ys : List Nat) (b : List α) (y : Nat) (d : α), y ∉ ys →
      ((ys.foldl (fun bb i => bb.set i (g bb i)) b).getD y d) = b.getD y d := by
  intro ys
  induction ys with
  | nil => intro b y d _; rfl
  | cons i rest ih =>
    intro b y d hy
    rw [List.foldl_cons, ih _ _ _ (fun hmem => hy (List.mem_cons_of_mem _ hmem)),
      getD_set_ne _ _ _ (fun hiy => hy (by rw [← hiy]; exact List.mem_cons_self i rest))]

theorem foldl_set_length {α : Type} (g : List α → Nat → α) :
    ∀ (ys : List Nat) (b : List α),
      (ys.foldl (fun bb i => bb.set i (g bb i)) b).length = b.length := by
  intro ys
  induction ys with
  | nil => intro b; rfl
  | cons i rest ih => intro b; rw [List.foldl_cons, ih]; exact List.length_set b i (g b i)

/-- The ascending shift-up loop of scrollUp and deleteLines, index-wise:
every index in the loop range receives the row below it. -/
theorem foldl_shiftUp_getD {α : Type} (dflt : α) :
    ∀ (n a : Nat) (b : List α), a + n < b.length → ∀ (y : Nat) (d : α),
      ((List.range' a n).foldl (fun bb i => bb.set i (bb.getD (i + 1) dflt)) b).getD y d =
        if a ≤ y ∧ y < a + n then b.getD (y + 1) d else b.getD y d := by
  intro n
  induction n with
  | zero =>
    intro a b _ y d
    rw [show List.range' a 0 = [] from rfl, List.foldl_nil, if_neg (by omega)]
  | succ m ih =>
    intro a b hlen y d
    rw [List.range'_succ, List.foldl_cons]
    have hlen' : (a + 1) + m < (b.set a (b.getD (a + 1) dflt)).length := by
      rw [List.length_set]; omega
    rw [ih (a + 1) _ hlen' y d]
    by_cases h1 : a + 1 ≤ y ∧ y < a + 1 + m
    · rw [if_pos h1, if_pos (by omega), getD_set_ne _ _ _ (by omega)]
    · rw [if_neg h1]
      by_cases h2 : y = a
      · rw [h2, if_pos (by omega), getD_set_self _ _ _ _ (by omega)]
        have hin : a + 1 < b.length := by omega
        rw [List.getD_eq_getElem _ _ hin, List.getD_eq_getElem _ _ hin]
      · rw [getD_set_ne _ _ _ (fun hh => h2 hh.symm), if_neg (by omega)]

theorem padRow_nil (C : Nat) : padRow C [] = blankRow C := by
  simp [padRow, blankRow]

theorem padRow_set (C : Nat) (w : List Char) (c : Char) (h : w.length < C) :
    (padRow C w).set w.length c = padRow C (w ++ [c]) := by
  unfold padRow
  rw [List.set_append_right _ _ (Nat.le_refl _), Nat.sub_self]
  have hrep : C - w.length = (C - (w.length + 1)) + 1 := by omega
  rw [hrep, List.replicate_succ]
  simp

theorem length_padRow (C : Nat) (w : List Char) (h : w.length ≤ C) :
    (padRow C w).length = C := by
  simp [padRow]; omega

/-! ### trimEnd and getScreen helpers -/

theorem dropWhile_replicate_space (p : List Char) (k : Nat) :
    (List.replicate k ' ' ++ p).dropWhile isJsSpace = p.dropWhile isJsSpace := by
  induction k with
  | zero => rfl
  | succ m ih =>
    rw [List.replicate_succ, List.cons_append,
      @List.dropWhile_cons_of_pos Char isJsSpace ' ' _ (by decide), ih]

theorem trimEnd_padRow (C : Nat) (l : List Char) :
    trimEnd (padRow C l) = trimEnd l := by
  unfold trimEnd padRow
  rw [List.reverse_append, List.reverse_replicate, dropWhile_replicate_space]

theorem trimEnd_blankRow (C : Nat) : trimEnd (blankRow C) = [] := by
  have h := trimEnd_padRow C []
  rwa [padRow_nil] at h

theorem dropTrailingEmpties_snoc_nil (ls : List (List Char)) :
    dropTrailingEmpties (ls ++ [[]]) = dropTrailingEmpties ls := by
  unfold dropTrailingEmpties
  rw [List.reverse_append]
  rfl

theorem dropTrailingEmpties_of_ne_nil (ls : List (List Char))
    (h : ∀ l ∈ ls, l ≠ []) : dropTrailingEmpties ls = ls := by
  unfold dropTrailingEmpties
  rw [List.dropWhile_eq_self_iff.mpr, List.reverse_reverse]
  intro hl
  have hmem : ls.reverse.get ⟨0, hl⟩ ∈ ls := by
    rw [← List.mem_reverse]
    exact List.get_mem _ _ _
  simpa [List.isEmpty_iff] using h _ hmem

/-! ### Stepping lemmas for write -/

namespace TerminalRenderer

theorem parseOSC_length_le : ∀ (l : List Char), (parseOSC l).length ≤ l.length := by
  intro l
  induction l with
  | nil => exact Nat.le_refl _
  | cons c rest ih =>
    unfold parseOSC
    by_cases h1 : c = '\x07'
    · rw [if_pos h1]; exact Nat.le_succ _
    · rw [if_neg h1]
      by_cases h2 : c = '\x1b'
      · rw [if_pos h2]
        cases rest with
        | nil => exact Nat.le_of_lt (Nat.lt_of_le_of_lt ih (Nat.lt_succ_self _))
        | cons r rs =>
          by_cases h3 : r = '\\'
          · subst h3
            show rs.length ≤ rs.length + 1 + 1
            omega
          · have hm : (match r :: rs with
                | '\\' :: r2 => r2
                | _ => parseOSC (r :: rs)) = parseOSC (r :: rs) := by
              split
              · next heq =>
                injection heq with h4 h5
                exact absurd h4 h3
              · rfl
            rw [hm]
            exact Nat.le_succ_of_le ih
      · rw [if_neg h2]
        exact Nat.le_succ_of_le ih

theorem parseCSI_length_le {st st' : TerminalRenderer} {l l' : List Char}
    (h : parseCSI st l = .ok (st', l')) : l'.length ≤ l.length := by
  have hr2len : ((l.dropWhile fun c => decide ('0' ≤ c ∧ c ≤ '?')).dropWhile
      (fun c => decide (' ' ≤ c ∧ c ≤ '/'))).length ≤ l.length := by
    have h1 := List.Sublist.length_le
      (show List.Sublist ((l.dropWhile fun c => decide ('0' ≤ c ∧ c ≤ '?')).dropWhile
          (fun c => decide (' ' ≤ c ∧ c ≤ '/')))
          (l.dropWhile fun c => decide ('0' ≤ c ∧ c ≤ '?'))
        from List.dropWhile_sublist _)
    have h2 := List.Sublist.length_le
      (show List.Sublist (l.dropWhile fun c => decide ('0' ≤ c ∧ c ≤ '?')) l
        from List.dropWhile_sublist _)
    omega
  unfold parseCSI at h
  split at h
  · injection h with h1
    injection h1 with h1 h2
    rw [← h2]
    exact Nat.zero_le _
  · next f rest heq =>
    split at h
    · exact absurd h (by simp)
    · injection h with h1
      injection h1 with h1 h2
      rw [← h2]
      rw [heq] at hr2len
      simp only [List.length_cons] at hr2len
      omega

theorem parseEscapeSequence_length_le {st st' : TerminalRenderer} {l l' : List Char}
    (h : parseEscapeSequence st l = .ok (st', l')) : l'.length ≤ l.length := by
  cases l with
  | nil =>
    simp only [parseEscapeSequence] at h
    injection h with h1
    injection h1 with h1 h2
    rw [← h2]
  | cons c rest =>
    simp only [parseEscapeSequence] at h
    by_cases h1 : c = '['
    · rw [if_pos h1] at h
      exact Nat.le_succ_of_le (parseCSI_length_le h)
    · rw [if_neg h1] at h
      by_cases h2 : c = ']'
      · rw [if_pos h2] at h
        injection h with hh
        injection hh with hh1 hh2
        rw [← hh2]
        exact Nat.le_succ_of_le (parseOSC_length_le rest)
      · rw [if_neg h2] at h
        have htail : ∀ (s2 : TerminalRenderer),
            (Except.ok (s2, rest) : Except Unit (TerminalRenderer × List Char)) = .ok (st', l') →
            l'.length ≤ (c :: rest).length := by
          intro s2 hh
          injection hh with hh1
          injection hh1 with hh1 hh2
          rw [← hh2]
          exact Nat.le_succ _
        by_cases h3 : c = '7'
        · rw [if_pos h3] at h; exact htail _ h
        · rw [if_neg h3] at h
          by_cases h4 : c = '8'
          · rw [if_pos h4] at h; exact htail _ h
          · rw [if_neg h4] at h
            by_cases h5 : c = 'D'
            · rw [if_pos h5] at h; exact htail _ h
            · rw [if_neg h5] at h
              by_cases h6 : c = 'M'
              · rw [if_pos h6] at h; exact htail _ h
              · rw [if_neg h6] at h
                by_cases h7 : c = 'c'
                · rw [if_pos h7] at h; exact htail _ h
                · rw [if_neg h7] at h; exact htail _ h

/-- The fuel of writeGo is irrelevant as soon as it covers the input
length. -/
theorem writeGo_fuelIrrel : ∀ (n m : Nat) (st : TerminalRenderer) (l : List Char),
    l.length ≤ n → l.length ≤ m → writeGo n st l = writeGo m st l := by
  intro n
  induction n with
  | zero =>
    intro m st l hn hm
    have : l = [] := List.length_eq_zero.mp (Nat.le_zero.mp hn)
    subst this
    cases m with
    | zero => rfl
    | succ m' => rfl
  | succ n' ih =>
    intro m st l hn hm
    cases l with
    | nil =>
      cases m with
      | zero => rfl
      | succ m' => rfl
    | cons c rest =>
      cases m with
      | zero => exact absurd hm (by simp)
      | succ m' =>
        have hrest_n : rest.length ≤ n' := by simpa using hn
        have hrest_m : rest.length ≤ m' := by simpa using hm
        show writeGo (n' + 1) st (c :: rest) = writeGo (m' + 1) st (c :: rest)
        unfold writeGo
        by_cases h1 : c = '\x1b'
        · rw [if_pos h1, if_pos h1]
          cases hp : parseEscapeSequence st rest with
          | error e => rfl
          | ok p =>
            obtain ⟨st2, rest2⟩ := p
            have hlen := parseEscapeSequence_length_le hp
            exact ih m' st2 rest2 (Nat.le_trans hlen hrest_n) (Nat.le_trans hlen hrest_m)
        · rw [if_neg h1, if_neg h1]
          by_cases h2 : c = '\r'
          · rw [if_pos h2, if_pos h2]; exact ih m' _ rest hrest_n hrest_m
          · rw [if_neg h2, if_neg h2]
            by_cases h3 : c = '\n'
            · rw [if_pos h3, if_pos h3]; exact ih m' _ rest hrest_n hrest_m
            · rw [if_neg h3, if_neg h3]
              by_cases h4 : c = '\x08'
              · rw [if_pos h4, if_pos h4]; exact ih m' _ rest hrest_n hrest_m
              · rw [if_neg h4, if_neg h4]
                by_cases h5 : c = '\t'
                · rw [if_pos h5, if_pos h5]; exact ih m' _ rest hrest_n hrest_m
                · rw [if_neg h5, if_neg h5]
                  by_cases h6 : ' ' ≤ c
                  · rw [if_pos h6, if_pos h6]; exact ih m' _ rest hrest_n hrest_m
                  · rw [if_neg h6, if_neg h6]; exact ih m' _ rest hrest_n hrest_m

theorem write_nil (st : TerminalRenderer) : write st [] = .ok st := rfl

theorem write_cons_esc {st st' : TerminalRenderer} {rest rest' : List Char}
    (h : parseEscapeSequence st rest = .ok (st', rest')) :
    write st ('\x1b' :: rest) = write st' rest' := by
  show writeGo (rest.length + 1) st ('\x1b' :: rest) = _
  conv_lhs => rw [writeGo]
  rw [if_pos rfl, h]
  exact writeGo_fuelIrrel _ _ _ _ (parseEscapeSequence_length_le h) (Nat.le_refl _)

theorem write_cons_esc_error {st : TerminalRenderer} {rest : List Char} {e : Unit}
    (h : parseEscapeSequence st rest = .error e) :
    write st ('\x1b' :: rest) = .error e := by
  show writeGo (rest.length + 1) st ('\x1b' :: rest) = _
  conv_lhs => rw [writeGo]
  rw [if_pos rfl, h]

theorem write_cons_cr (st : TerminalRenderer) (rest : List Char) :
    write st ('\r' :: rest) = write { st with cursorX := 0 } rest := by
  show writeGo (rest.length + 1) st ('\r' :: rest) = writeGo rest.length _ rest
  conv_lhs => rw [writeGo]
  rw [if_neg (by decide), if_pos rfl]

theorem write_cons_lf (st : TerminalRenderer) (rest : List Char) :
    write st ('\n' :: rest) = write (lineFeed st) rest := by
  show writeGo (rest.length + 1) st ('\n' :: rest) = writeGo rest.length _ rest
  conv_lhs => rw [writeGo]
  rw [if_neg (by decide), if_neg (by decide), if_pos rfl]

theorem write_cons_printable {st : TerminalRenderer} {c : Char} (rest : List Char)
    (hc : ' ' ≤ c) : write st (c :: rest) = write (putChar st c) rest := by
  have hval : 32 ≤ c.val := hc
  have h1 : c ≠ '\x1b' := fun h => by subst h; exact absurd hval (by decide)
  have h2 : c ≠ '\r' := fun h => by subst h; exact absurd hval (by decide)
  have h3 : c ≠ '\n' := fun h => by subst h; exact absurd hval (by decide)
  have h4 : c ≠ '\x08' := fun h => by subst h; exact absurd hval (by decide)
  have h5 : c ≠ '\t' := fun h => by subst h; exact absurd hval (by decide)
  show writeGo (rest.length + 1) st (c :: rest) = writeGo rest.length _ rest
  conv_lhs => rw [writeGo]
  rw [if_neg h1, if_neg h2, if_neg h3, if_neg h4, if_neg h5, if_pos hc]

end TerminalRenderer

/-! ### Operations that only touch the buffer -/

namespace TerminalRenderer

theorem bufOnly_refl (st : TerminalRenderer) : BufOnly st st := rfl

theorem bufOnly_trans {s t u : TerminalRenderer} (h1 : BufOnly s t) (h2 : BufOnly t u) :
    BufOnly s u := by
  unfold BufOnly at *
  rw [h2, h1]

theorem bufOnly_scrollUp (st : TerminalRenderer) : BufOnly st (scrollUp st) := rfl

theorem bufOnly_scrollDown (st : TerminalRenderer) : BufOnly st (scrollDown st) := rfl

theorem bufOnly_insertLineOnce (st : TerminalRenderer) : BufOnly st (insertLineOnce st) := rfl

theorem bufOnly_deleteLineOnce (st : TerminalRenderer) : BufOnly st (deleteLineOnce st) := rfl

theorem bufOnly_clearLine (st : TerminalRenderer) (y a b : Nat) :
    BufOnly st (clearLine st y a b) := by
  unfold clearLine
  split
  · rfl
  · rfl

theorem bufOnly_insertLines (st : TerminalRenderer) : ∀ n, BufOnly st (insertLines st n) := by
  intro n
  induction n generalizing st with
  | zero => exact bufOnly_refl st
  | succ m ih => exact bufOnly_trans (bufOnly_insertLineOnce st) (ih _)

theorem bufOnly_deleteLines (st : TerminalRenderer) : ∀ n, BufOnly st (deleteLines st n) := by
  intro n
  induction n generalizing st with
  | zero => exact bufOnly_refl st
  | succ m ih => exact bufOnly_trans (bufOnly_deleteLineOnce st) (ih _)

theorem bufOnly_scrollUpN (st : TerminalRenderer) : ∀ n, BufOnly st (scrollUpN st n) := by
  intro n
  induction n generalizing st with
  | zero => exact bufOnly_refl st
  | succ m ih => exact bufOnly_trans (bufOnly_scrollUp st) (ih _)

theorem bufOnly_scrollDownN (st : TerminalRenderer) : ∀ n, BufOnly st (scrollDownN st n) := by
  intro n
  induction n generalizing st with
  | zero => exact bufOnly_refl st
  | succ m ih => exact bufOnly_trans (bufOnly_scrollDown st) (ih _)

theorem bufOnly_foldl_clearLine (ys : List Nat) :
    ∀ (st : TerminalRenderer), BufOnly st (ys.foldl (fun s y => clearLine s y 0 s.cols) st) := by
  induction ys with
  | nil => exact bufOnly_refl
  | cons i rest ih =>
    intro st
    exact bufOnly_trans (bufOnly_clearLine st i 0 st.cols) (ih _)

theorem bufOnly_eraseInDisplay (st : TerminalRenderer) (mode : Nat) :
    BufOnly st (eraseInDisplay st mode) := by
  unfold eraseInDisplay
  match mode with
  | 0 =>
    exact bufOnly_trans (bufOnly_clearLine st st.cursorY st.cursorX st.cols)
      (bufOnly_foldl_clearLine _ _)
  | 1 =>
    exact bufOnly_trans (bufOnly_foldl_clearLine _ _)
      (bufOnly_clearLine _ _ 0 _)
  | 2 => exact bufOnly_foldl_clearLine _ _
  | 3 => exact bufOnly_foldl_clearLine _ _
  | (m + 4) => exact bufOnly_refl st

theorem bufOnly_eraseInLine (st : TerminalRenderer) (mode : Nat) :
    BufOnly st (eraseInLine st mode) := by
  unfold eraseInLine
  match mode with
  | 0 => exact bufOnly_clearLine _ _ _ _
  | 1 => exact bufOnly_clearLine _ _ _ _
  | 2 => exact bufOnly_clearLine _ _ _ _
  | (m + 3) => exact bufOnly_refl st

theorem bufOnly_eraseChars {st st' : TerminalRenderer} {n : Nat}
    (h : eraseChars st n = .ok st') : BufOnly st st' := by
  unfold eraseChars at h
  split at h
  · exact absurd h (by simp)
  · injection h with h1
    rw [← h1]
    rfl

theorem bufOnly_deleteChars {st st' : TerminalRenderer} {n : Nat}
    (h : deleteChars st n = .ok st') : BufOnly st st' := by
  unfold deleteChars at h
  split at h
  · exact absurd h (by simp)
  · injection h with h1
    rw [← h1]
    rfl

end TerminalRenderer

/-! ### Preservation of the cursor bounds by write and clear -/

namespace TerminalRenderer

theorem cinv_of_bufOnly {st st' : TerminalRenderer} (h : BufOnly st st')
    (hc : CursorInv st) : CursorInv st' := by
  unfold BufOnly at h
  rw [h]
  exact hc

theorem lineFeed_cursorX (st : TerminalRenderer) : (lineFeed st).cursorX = st.cursorX := by
  unfold lineFeed
  split
  · rfl
  · rfl

theorem lineFeed_cinv {st : TerminalRenderer} (h : CursorInv st) : CursorInv (lineFeed st) := by
  obtain ⟨h1, h2, h3, h4, h5, h6, h7⟩ := h
  unfold lineFeed
  split
  · exact cinv_of_bufOnly (bufOnly_scrollUp st) ⟨h1, h2, h3, h4, h5, h6, h7⟩
  · next hc => exact ⟨h1, h2, h3, by dsimp only; omega, h5, h6, h7⟩

theorem cinv_advanceX {st : TerminalRenderer} (h : CursorInv st)
    (hx : st.cursorX < st.cols ∨ st.cursorX = 0) :
    CursorInv { st with cursorX := st.cursorX + 1 } := by
  obtain ⟨h1, h2, h3, h4, h5, h6, h7⟩ := h
  exact ⟨h1, h2, by dsimp only; omega, h4, h5, h6, h7⟩

theorem putChar_cinv {st : TerminalRenderer} (c : Char) (h : CursorInv st) :
    CursorInv (putChar st c) := by
  simp only [putChar]
  by_cases hwrap : st.cols ≤ st.cursorX
  · rw [if_pos hwrap]
    have hx0 : (lineFeed { st with cursorX := 0 }).cursorX = 0 := lineFeed_cursorX _
    have hinv1 : CursorInv (lineFeed { st with cursorX := 0 }) := by
      apply lineFeed_cinv
      obtain ⟨h1, h2, h3, h4, h5, h6, h7⟩ := h
      exact ⟨h1, h2, Nat.zero_le _, h4, h5, h6, h7⟩
    split
    · exact cinv_advanceX (cinv_of_bufOnly rfl hinv1) (Or.inr hx0)
    · exact cinv_advanceX hinv1 (Or.inr hx0)
  · rw [if_neg hwrap]
    split
    · exact cinv_advanceX (cinv_of_bufOnly rfl h) (Or.inl (Nat.lt_of_not_le hwrap))
    · exact cinv_advanceX h (Or.inl (Nat.lt_of_not_le hwrap))

theorem reset_cinv {st : TerminalRenderer} (h : CursorInv st) : CursorInv (reset st) := by
  obtain ⟨h1, h2, h3, h4, h5, h6, h7⟩ := h
  unfold CursorInv reset
  simp only
  omega

theorem applyCSI_cinv {st st' : TerminalRenderer} {params : List Char} {f : Char}
    (h : applyCSI st params f = .ok st') (hc : CursorInv st) : CursorInv st' := by
  obtain ⟨h1, h2, h3, h4, h5, h6, h7⟩ := hc
  unfold applyCSI at h
  split at h
  all_goals
    try (injection h with hh; rw [← hh]; unfold CursorInv; simp only; omega)
  · injection h with hh
    rw [← hh]
    exact cinv_of_bufOnly (bufOnly_eraseInDisplay st _) ⟨h1, h2, h3, h4, h5, h6, h7⟩
  · injection h with hh
    rw [← hh]
    exact cinv_of_bufOnly (bufOnly_eraseInLine st _) ⟨h1, h2, h3, h4, h5, h6, h7⟩
  · injection h with hh
    rw [← hh]
    exact cinv_of_bufOnly (bufOnly_insertLines st _) ⟨h1, h2, h3, h4, h5, h6, h7⟩
  · injection h with hh
    rw [← hh]
    exact cinv_of_bufOnly (bufOnly_deleteLines st _) ⟨h1, h2, h3, h4, h5, h6, h7⟩
  · exact cinv_of_bufOnly (bufOnly_deleteChars h) ⟨h1, h2, h3, h4, h5, h6, h7⟩
  · injection h with hh
    rw [← hh]
    exact cinv_of_bufOnly (bufOnly_scrollUpN st _) ⟨h1, h2, h3, h4, h5, h6, h7⟩
  · injection h with hh
    rw [← hh]
    exact cinv_of_bufOnly (bufOnly_scrollDownN st _) ⟨h1, h2, h3, h4, h5, h6, h7⟩
  · exact cinv_of_bufOnly (bufOnly_eraseChars h) ⟨h1, h2, h3, h4, h5, h6, h7⟩
  · simp only at h
    injection h with hh
    rw [← hh]
    exact ⟨h1, h2, h3, h4, h5, h6, h7⟩

theorem parseCSI_cinv {st st' : TerminalRenderer} {l l' : List Char}
    (h : parseCSI st l = .ok (st', l')) (hc : CursorInv st) : CursorInv st' := by
  unfold parseCSI at h
  split at h
  · injection h with hh
    injection hh with hh1 hh2
    rw [← hh1]
    exact hc
  · split at h
    · exact absurd h (by simp)
    · next st1 heq =>
      injection h with hh
      injection hh with hh1 hh2
      rw [← hh1]
      exact applyCSI_cinv heq hc

theorem parseEscapeSequence_cinv {st st' : TerminalRenderer} {l l' : List Char}
    (h : parseEscapeSequence st l = .ok (st', l')) (hc : CursorInv st) : CursorInv st' := by
  obtain ⟨h1, h2, h3, h4, h5, h6, h7⟩ := hc
  cases l with
  | nil =>
    simp only [parseEscapeSequence] at h
    injection h with hh
    injection hh with hh1 hh2
    rw [← hh1]
    exact ⟨h1, h2, h3, h4, h5, h6, h7⟩
  | cons c rest =>
    simp only [parseEscapeSequence] at h
    by_cases hb1 : c = '['
    · rw [if_pos hb1] at h
      exact parseCSI_cinv h ⟨h1, h2, h3, h4, h5, h6, h7⟩
    · rw [if_neg hb1] at h
      by_cases hb2 : c = ']'
      · rw [if_pos hb2] at h
        injection h with hh
        injection hh with hh1 hh2
        rw [← hh1]
        exact ⟨h1, h2, h3, h4, h5, h6, h7⟩
      · rw [if_neg hb2] at h
        by_cases hb3 : c = '7'
        · rw [if_pos hb3] at h
          injection h with hh
          injection hh with hh1 hh2
          rw [← hh1]
          exact ⟨h1, h2, h3, h4, h3, h4, h7⟩
        · rw [if_neg hb3] at h
          by_cases hb4 : c = '8'
          · rw [if_pos hb4] at h
            injection h with hh
            injection hh with hh1 hh2
            rw [← hh1]
            exact ⟨h1, h2, h5, h6, h5, h6, h7⟩
          · rw [if_neg hb4] at h
            by_cases hb5 : c = 'D'
            · rw [if_pos hb5] at h
              injection h with hh
              injection hh with hh1 hh2
              rw [← hh1]
              exact lineFeed_cinv ⟨h1, h2, h3, h4, h5, h6, h7⟩
            · rw [if_neg hb5] at h
              by_cases hb6 : c = 'M'
              · rw [if_pos hb6] at h
                injection h with hh
                injection hh with hh1 hh2
                rw [← hh1]
                by_cases hm : st.scrollTop < st.cursorY
                · rw [if_pos hm]
                  exact ⟨h1, h2, h3, by dsimp only; omega, h5, h6, h7⟩
                · rw [if_neg hm]
                  exact ⟨h1, h2, h3, h4, h5, h6, h7⟩
              · rw [if_neg hb6] at h
                by_cases hb7 : c = 'c'
                · rw [if_pos hb7] at h
                  injection h with hh
                  injection hh with hh1 hh2
                  rw [← hh1]
                  exact reset_cinv ⟨h1, h2, h3, h4, h5, h6, h7⟩
                · rw [if_neg hb7] at h
                  injection h with hh
                  injection hh with hh1 hh2
                  rw [← hh1]
                  exact ⟨h1, h2, h3, h4, h5, h6, h7⟩

theorem writeGo_cinv : ∀ (n : Nat) (st : TerminalRenderer) (l : List Char)
    (st' : TerminalRenderer), CursorInv st → writeGo n st l = .ok st' → CursorInv st' := by
  intro n
  induction n with
  | zero =>
    intro st l st' hc h
    injection h with hh
    rw [← hh]
    exact hc
  | succ n' ih =>
    intro st l st' hc h
    cases l with
    | nil =>
      injection h with hh
      rw [← hh]
      exact hc
    | cons c rest =>
      simp only [writeGo] at h
      split at h
      · split at h
        · exact absurd h (by simp)
        · next p heq =>
          exact ih _ _ _ (parseEscapeSequence_cinv heq hc) h
      · split at h
        · refine ih _ _ _ ?_ h
          obtain ⟨h1, h2, h3, h4, h5, h6, h7⟩ := hc
          exact ⟨h1, h2, Nat.zero_le _, h4, h5, h6, h7⟩
        · split at h
          · exact ih _ _ _ (lineFeed_cinv hc) h
          · split at h
            · refine ih _ _ _ ?_ h
              obtain ⟨h1, h2, h3, h4, h5, h6, h7⟩ := hc
              split
              · exact ⟨h1, h2, by dsimp only; omega, h4, h5, h6, h7⟩
              · exact ⟨h1, h2, h3, h4, h5, h6, h7⟩
            · split at h
              · refine ih _ _ _ ?_ h
                obtain ⟨h1, h2, h3, h4, h5, h6, h7⟩ := hc
                exact ⟨h1, h2, by dsimp only; omega, h4, h5, h6, h7⟩
              · split at h
                · exact ih _ _ _ (putChar_cinv c hc) h
                · exact ih _ _ _ hc h

theorem write_cinv {st st' : TerminalRenderer} {l : List Char}
    (h : write st l = .ok st') (hc : CursorInv st) : CursorInv st' :=
  writeGo_cinv _ _ _ _ hc h

end TerminalRenderer

/-! ### Preservation of the scroll-bottom bound, resize included -/

namespace TerminalRenderer

theorem sinv_of_bufOnly {st st' : TerminalRenderer} (h : BufOnly st st')
    (hc : ScrollBtmInv st) : ScrollBtmInv st' := by
  unfold BufOnly at h
  rw [h]
  exact hc

theorem lineFeed_sinv {st : TerminalRenderer} (h : ScrollBtmInv st) :
    ScrollBtmInv (lineFeed st) := by
  unfold lineFeed
  split
  · exact sinv_of_bufOnly (bufOnly_scrollUp st) h
  · exact h

theorem putChar_sinv {st : TerminalRenderer} (c : Char) (h : ScrollBtmInv st) :
    ScrollBtmInv (putChar st c) := by
  simp only [putChar]
  by_cases hwrap : st.cols ≤ st.cursorX
  · rw [if_pos hwrap]
    split
    · exact lineFeed_sinv h
    · exact lineFeed_sinv h
  · rw [if_neg hwrap]
    split
    · exact h
    · exact h

theorem reset_sinv {st : TerminalRenderer} (h : ScrollBtmInv st) : ScrollBtmInv (reset st) := by
  obtain ⟨h1, h2⟩ := h
  unfold ScrollBtmInv reset
  simp only
  omega

theorem applyCSI_sinv {st st' : TerminalRenderer} {params : List Char} {f : Char}
    (h : applyCSI st params f = .ok st') (hc : ScrollBtmInv st) : ScrollBtmInv st' := by
  obtain ⟨h1, h2⟩ := hc
  unfold applyCSI at h
  split at h
  all_goals
    try (injection h with hh; rw [← hh]; unfold ScrollBtmInv; simp only; omega)
  · injection h with hh
    rw [← hh]
    exact sinv_of_bufOnly (bufOnly_eraseInDisplay st _) ⟨h1, h2⟩
  · injection h with hh
    rw [← hh]
    exact sinv_of_bufOnly (bufOnly_eraseInLine st _) ⟨h1, h2⟩
  · injection h with hh
    rw [← hh]
    exact sinv_of_bufOnly (bufOnly_insertLines st _) ⟨h1, h2⟩
  · injection h with hh
    rw [← hh]
    exact sinv_of_bufOnly (bufOnly_deleteLines st _) ⟨h1, h2⟩
  · exact sinv_of_bufOnly (bufOnly_deleteChars h) ⟨h1, h2⟩
  · injection h with hh
    rw [← hh]
    exact sinv_of_bufOnly (bufOnly_scrollUpN st _) ⟨h1, h2⟩
  · injection h with hh
    rw [← hh]
    exact sinv_of_bufOnly (bufOnly_scrollDownN st _) ⟨h1, h2⟩
  · exact sinv_of_bufOnly (bufOnly_eraseChars h) ⟨h1, h2⟩
  · simp only at h
    injection h with hh
    rw [← hh]
    exact ⟨h1, h2⟩

theorem parseCSI_sinv {st st' : TerminalRenderer} {l l' : List Char}
    (h : parseCSI st l = .ok (st', l')) (hc : ScrollBtmInv st) : ScrollBtmInv st' := by
  unfold parseCSI at h
  split at h
  · injection h with hh
    injection hh with hh1 hh2
    rw [← hh1]
    exact hc
  · split at h
    · exact absurd h (by simp)
    · next st1 heq =>
      injection h with hh
      injection hh with hh1 hh2
      rw [← hh1]
      exact applyCSI_sinv heq hc

theorem parseEscapeSequence_sinv {st st' : TerminalRenderer} {l l' : List Char}
    (h : parseEscapeSequence st l = .ok (st', l')) (hc : ScrollBtmInv st) :
    ScrollBtmInv st' := by
  obtain ⟨h1, h2⟩ := hc
  cases l with
  | nil =>
    simp only [parseEscapeSequence] at h
    injection h with hh
    injection hh with hh1 hh2
    rw [← hh1]
    exact ⟨h1, h2⟩
  | cons c rest =>
    simp only [parseEscapeSequence] at h
    by_cases hb1 : c = '['
    · rw [if_pos hb1] at h
      exact parseCSI_sinv h ⟨h1, h2⟩
    · rw [if_neg hb1] at h
      by_cases hb2 : c = ']'
      · rw [if_pos hb2] at h
        injection h with hh
        injection hh with hh1 hh2
        rw [← hh1]
        exact ⟨h1, h2⟩
      · rw [if_neg hb2] at h
        by_cases hb3 : c = '7'
        · rw [if_pos hb3] at h
          injection h with hh
          injection hh with hh1 hh2
          rw [← hh1]
          exact ⟨h1, h2⟩
        · rw [if_neg hb3] at h
          by_cases hb4 : c = '8'
          · rw [if_pos hb4] at h
            injection h with hh
            injection hh with hh1 hh2
            rw [← hh1]
            exact ⟨h1, h2⟩
          · rw [if_neg hb4] at h
            by_cases hb5 : c = 'D'
            · rw [if_pos hb5] at h
              injection h with hh
              injection hh with hh1 hh2
              rw [← hh1]
              exact lineFeed_sinv ⟨h1, h2⟩
            · rw [if_neg hb5] at h
              by_cases hb6 : c = 'M'
              · rw [if_pos hb6] at h
                injection h with hh
                injection hh with hh1 hh2
                rw [← hh1]
                split
                · exact ⟨h1, h2⟩
                · exact ⟨h1, h2⟩
              · rw [if_neg hb6] at h
                by_cases hb7 : c = 'c'
                · rw [if_pos hb7] at h
                  injection h with hh
                  injection hh with hh1 hh2
                  rw [← hh1]
                  exact reset_sinv ⟨h1, h2⟩
                · rw [if_neg hb7] at h
                  injection h with hh
                  injection hh with hh1 hh2
                  rw [← hh1]
                  exact ⟨h1, h2⟩

theorem writeGo_sinv : ∀ (n : Nat) (st : TerminalRenderer) (l : List Char)
    (st' : TerminalRenderer), ScrollBtmInv st → writeGo n st l = .ok st' →
    ScrollBtmInv st' := by
  intro n
  induction n with
  | zero =>
    intro st l st' hc h
    injection h with hh
    rw [← hh]
    exact hc
  | succ n' ih =>
    intro st l st' hc h
    cases l with
    | nil =>
      injection h with hh
      rw [← hh]
      exact hc
    | cons c rest =>
      simp only [writeGo] at h
      split at h
      · split at h
        · exact absurd h (by simp)
        · next p heq =>
          exact ih _ _ _ (parseEscapeSequence_sinv heq hc) h
      · split at h
        · refine ih _ _ _ ?_ h
          exact hc
        · split at h
          · exact ih _ _ _ (lineFeed_sinv hc) h
          · split at h
            · refine ih _ _ _ ?_ h
              split
              · exact hc
              · exact hc
            · split at h
              · refine ih _ _ _ ?_ h
                exact hc
              · split at h
                · exact ih _ _ _ (putChar_sinv c hc) h
                · exact ih _ _ _ hc h

theorem write_sinv {st st' : TerminalRenderer} {l : List Char}
    (h : write st l = .ok st') (hc : ScrollBtmInv st) : ScrollBtmInv st' :=
  writeGo_sinv _ _ _ _ hc h

theorem resize_sinv {st : TerminalRenderer} {c r : Nat} (hr : 1 ≤ r) :
    ScrollBtmInv (resize st c r) := by
  unfold ScrollBtmInv resize
  simp only
  omega

end TerminalRenderer

theorem mkRenderer_cinv {cols rows : Nat} (hc : 1 ≤ cols) (hr : 1 ≤ rows) :
    CursorInv (mkRenderer cols rows) := by
  unfold CursorInv mkRenderer
  simp only
  omega

theorem mkRenderer_sinv {cols rows : Nat} (hr : 1 ≤ rows) :
    ScrollBtmInv (mkRenderer cols rows) := by
  unfold ScrollBtmInv mkRenderer
  simp only
  omega

theorem runOps_cinv : ∀ (ops : List Op) (st st' : TerminalRenderer), CursorInv st →
    (∀ op ∈ ops, op.isResize = false) → runOps st ops = .ok st' → CursorInv st' := by
  intro ops
  induction ops with
  | nil =>
    intro st st' hc _ h
    injection h with hh
    rw [← hh]
    exact hc
  | cons op rest ih =>
    intro st st' hc hno h
    unfold runOps at h
    split at h
    · exact absurd h (by simp)
    · next st1 heq =>
      refine ih st1 st' ?_ (fun o ho => hno o (List.mem_cons_of_mem _ ho)) h
      cases op with
      | wr d => exact TerminalRenderer.write_cinv heq hc
      | clr =>
        injection heq with hh
        rw [← hh]
        exact TerminalRenderer.reset_cinv hc
      | rsz c r =>
        exact absurd (hno _ (List.mem_cons_self _ _)) (by simp [Op.isResize])

theorem runOps_sinv : ∀ (ops : List Op) (st st' : TerminalRenderer), ScrollBtmInv st →
    (∀ op ∈ ops, op.goodResize = true) → runOps st ops = .ok st' → ScrollBtmInv st' := by
  intro ops
  induction ops with
  | nil =>
    intro st st' hc _ h
    injection h with hh
    rw [← hh]
    exact hc
  | cons op rest ih =>
    intro st st' hc hgood h
    unfold runOps at h
    split at h
    · exact absurd h (by simp)
    · next st1 heq =>
      refine ih st1 st' ?_ (fun o ho => hgood o (List.mem_cons_of_mem _ ho)) h
      cases op with
      | wr d => exact TerminalRenderer.write_sinv heq hc
      | clr =>
        injection heq with hh
        rw [← hh]
        exact TerminalRenderer.reset_sinv hc
      | rsz c r =>
        injection heq with hh
        rw [← hh]
        refine TerminalRenderer.resize_sinv ?_
        have := hgood _ (List.mem_cons_self _ _)
        simpa [Op.goodResize] using this

/-! ### Claim C1 -/

/-- C1: the claim states that write never fails on any input in any
reachable renderer state.  The code refutes it: saving the cursor at row 5,
shrinking the screen to 3 rows (which clamps the cursor but not the saved
cursor), restoring the cursor and erasing characters makes eraseChars
dereference this.buffer[5] on a 3-row buffer, a TypeError in the source;
the embedded write evaluates to an error on exactly that call sequence. -/
theorem C1_write_throws :
    ((TerminalRenderer.write (mkRenderer 10 10) "\x1b[6;1H\x1b7".toList).bind
      (fun r1 => TerminalRenderer.write (r1.resize 10 3) "\x1b8\x1b[1X".toList)).isOk
      = false := by
  decide

/-! ### Claim C3 -/

/-- C3, counterexample to the claim as stated: on a fresh 2 by 2 screen a
single write of two plain characters succeeds and leaves cursorX = 2 = cols,
outside the claimed range [0, cols-1]. -/
theorem C3_counterexample :
    (TerminalRenderer.write (mkRenderer 2 2) "ab".toList).isOk = true ∧
    (okD (TerminalRenderer.write (mkRenderer 2 2) "ab".toList) (mkRenderer 2 2)).cursorX = 2 ∧
    (okD (TerminalRenderer.write (mkRenderer 2 2) "ab".toList) (mkRenderer 2 2)).cols = 2 ∧
    ¬(2 ≤ 2 - 1) := by
  decide

/-- C3, amended: over every sequence of write and clear operations from a
fresh screen with cols ≥ 1 and rows ≥ 1, the cursor satisfies
0 ≤ cursorX ≤ cols (cursorX = cols is the transient pending-wrap position
after writing into the last column) and 0 ≤ cursorY ≤ rows - 1.  Resize
itself clamps the cursor but is excluded from the sequence because a
cursor saved before a shrinking resize and restored afterwards leaves
the claimed bounds (the defect behind C1). -/
theorem C3_cursor_bounds_amended (cols rows : Nat) (ops : List Op)
    (st' : TerminalRenderer) (hc : 1 ≤ cols) (hr : 1 ≤ rows)
    (hnr : ∀ op ∈ ops, op.isResize = false)
    (h : runOps (mkRenderer cols rows) ops = .ok st') :
    st'.cursorX ≤ st'.cols ∧ st'.cursorY ≤ st'.rows - 1 := by
  have hinv := runOps_cinv ops _ _ (mkRenderer_cinv hc hr) hnr h
  obtain ⟨h1, h2, h3, h4, h5, h6, h7⟩ := hinv
  exact ⟨h3, by omega⟩

/-- C3, witness: the amended bound evaluated after a concrete
write-clear-write sequence on a 3 by 4 screen. -/
theorem C3_witness :
    (okD (runOps (mkRenderer 3 4) [Op.wr "hi\n".toList, Op.clr, Op.wr "\x1b[9;9H".toList])
        (mkRenderer 3 4)).cursorX ≤
      (okD (runOps (mkRenderer 3 4) [Op.wr "hi\n".toList, Op.clr, Op.wr "\x1b[9;9H".toList])
        (mkRenderer 3 4)).cols ∧
    (okD (runOps (mkRenderer 3 4) [Op.wr "hi\n".toList, Op.clr, Op.wr "\x1b[9;9H".toList])
        (mkRenderer 3 4)).cursorY ≤
      (okD (runOps (mkRenderer 3 4) [Op.wr "hi\n".toList, Op.clr, Op.wr "\x1b[9;9H".toList])
        (mkRenderer 3 4)).rows - 1 :=
  C3_cursor_bounds_amended 3 4 [Op.wr "hi\n".toList, Op.clr, Op.wr "\x1b[9;9H".toList] _
    (by decide) (by decide) (by decide) rfl

/-! ### Claim C4 -/

/-- C4, counterexample to the claim as stated: on a fresh 5 by 5 screen,
CSI 100 r stores scrollTop = 99 while scrollBottom stays 4, so the invariant
scrollTop ≤ scrollBottom fails after a single write. -/
theorem C4_counterexample :
    (TerminalRenderer.write (mkRenderer 5 5) "\x1b[100r".toList).isOk = true ∧
    (okD (TerminalRenderer.write (mkRenderer 5 5) "\x1b[100r".toList)
      (mkRenderer 5 5)).scrollTop = 99 ∧
    (okD (TerminalRenderer.write (mkRenderer 5 5) "\x1b[100r".toList)
      (mkRenderer 5 5)).scrollBottom = 4 ∧
    ¬(99 ≤ 4) := by
  decide

/-- C4, amended: the set-scroll-region handler clamps only the bottom bound,
so after every sequence of write, clear, and resize operations (each resize
requesting at least one row) from a fresh screen with rows ≥ 1, the bounds
0 ≤ scrollTop and scrollBottom ≤ rows - 1 hold, while scrollTop ≤
scrollBottom can be violated by a CSI r whose top parameter exceeds its
bottom parameter. -/
theorem C4_scroll_region_amended (cols rows : Nat) (ops : List Op)
    (st' : TerminalRenderer) (hr : 1 ≤ rows)
    (hops : ∀ op ∈ ops, op.goodResize = true)
    (h : runOps (mkRenderer cols rows) ops = .ok st') :
    st'.scrollBottom ≤ st'.rows - 1 ∧ 1 ≤ st'.rows := by
  have hinv := runOps_sinv ops _ _ (mkRenderer_sinv hr) hops h
  obtain ⟨h1, h2⟩ := hinv
  exact ⟨by omega, h1⟩

/-- C4, witness: the amended bounds evaluated after a concrete sequence with
a scroll-region write, a shrinking resize, another write and a clear. -/
theorem C4_witness :
    (okD (runOps (mkRenderer 6 6)
        [Op.wr "\x1b[2;3r".toList, Op.rsz 7 2, Op.wr "x\n".toList, Op.clr])
        (mkRenderer 6 6)).scrollBottom ≤
      (okD (runOps (mkRenderer 6 6)
        [Op.wr "\x1b[2;3r".toList, Op.rsz 7 2, Op.wr "x\n".toList, Op.clr])
        (mkRenderer 6 6)).rows - 1 ∧
    1 ≤ (okD (runOps (mkRenderer 6 6)
        [Op.wr "\x1b[2;3r".toList, Op.rsz 7 2, Op.wr "x\n".toList, Op.clr])
        (mkRenderer 6 6)).rows :=
  C4_scroll_region_amended 6 6
    [Op.wr "\x1b[2;3r".toList, Op.rsz 7 2, Op.wr "x\n".toList, Op.clr] _
    (by decide) (by decide) rfl

theorem getD_map_range {α : Type} (f : Nat → α) (n i : Nat) (d : α) (h : i < n) :
    ((List.range n).map f).getD i d = f i := by
  rw [List.getD_eq_getElem _ _ (by simp only [List.length_map, List.length_range]; exact h)]
  simp only [List.getElem_map, List.getElem_range]

theorem getD_drop {α : Type} (l : List α) (k i : Nat) (d : α) :
    (l.drop k).getD i d = l.getD (k + i) d := by
  rw [List.getD_eq_getD_get?, List.getD_eq_getD_get?, List.get?_eq_getElem?,
    List.get?_eq_getElem?, List.getElem?_drop]

/-! ### Claim C5 -/

/-- C5, counterexample to the claim as stated: resize is claimed to reset
the scroll region to the full screen with scrollTop = 0, but after CSI 2;3r
on a 3 by 3 screen a resize to 3 by 4 leaves scrollTop = 1. -/
theorem C5_counterexample :
    (TerminalRenderer.write (mkRenderer 3 3) "\x1b[2;3r".toList).isOk = true ∧
    ((okD (TerminalRenderer.write (mkRenderer 3 3) "\x1b[2;3r".toList)
      (mkRenderer 3 3)).resize 3 4).scrollTop = 1 ∧
    ¬(1 = 0) := by
  decide

/-- C5, amended: for every prior state and new dimensions, resize preserves
the overlapping top-left-aligned cell contents, clamps the cursor into the
new bounds, and sets scrollBottom = rows - 1, but leaves scrollTop (and the
saved cursor) unchanged rather than resetting the whole scroll region; it
cannot throw, being a total function of the state. -/
theorem C5_resize_amended (st : TerminalRenderer) (cols rows : Nat) :
    (∀ y x, y < min st.rows rows → x < min st.cols cols →
      ((st.resize cols rows).buffer.getD y []).getD x ' ' =
        (st.buffer.getD y []).getD x ' ') ∧
    (st.resize cols rows).cursorX = min st.cursorX (cols - 1) ∧
    (st.resize cols rows).cursorY = min st.cursorY (rows - 1) ∧
    (st.resize cols rows).scrollBottom = rows - 1 ∧
    (st.resize cols rows).scrollTop = st.scrollTop ∧
    (st.resize cols rows).cols = cols ∧ (st.resize cols rows).rows = rows := by
  refine ⟨?_, rfl, rfl, rfl, rfl, rfl, rfl⟩
  intro y x hy hx
  show ((TerminalRenderer.resize st cols rows).buffer.getD y []).getD x ' ' = _
  unfold TerminalRenderer.resize
  simp only
  rw [getD_map_range _ rows y _ (by omega), getD_map_range _ cols x _ (by omega),
    if_pos ⟨by omega, by omega⟩]

/-- C5, witness: the amended resize contract evaluated at a concrete state
(a 4 by 3 screen holding two rows of text, shrunk to 2 columns and grown to
5 rows). -/
theorem C5_witness :
    (((okD (TerminalRenderer.write (mkRenderer 4 3) "ab\r\ncd".toList)
        (mkRenderer 4 3)).resize 2 5).buffer.getD 1 []).getD 0 ' ' =
      (((okD (TerminalRenderer.write (mkRenderer 4 3) "ab\r\ncd".toList)
        (mkRenderer 4 3)).buffer.getD 1 []).getD 0 ' ') ∧
    ((okD (TerminalRenderer.write (mkRenderer 4 3) "ab\r\ncd".toList)
        (mkRenderer 4 3)).resize 2 5).scrollBottom = 5 - 1 :=
  ⟨(C5_resize_amended _ 2 5).1 1 0 (by decide) (by decide),
   (C5_resize_amended _ 2 5).2.2.2.1⟩

/-! ### Claim C6 -/

/-- C6, counterexample to the claim as stated: on a 1 by 5 screen holding
the character A in row 0, with scroll region rows 2..3 and the cursor at
row 0 (outside the region), a single insert-line copies row 0 into row 1 —
a row strictly outside [scrollTop, scrollBottom] changes content. -/
theorem C6_counterexample :
    (TerminalRenderer.write (mkRenderer 1 5) "A\x1b[3;4r".toList).isOk = true ∧
    (okD (TerminalRenderer.write (mkRenderer 1 5) "A\x1b[3;4r".toList)
      (mkRenderer 1 5)).scrollTop = 2 ∧
    (okD (TerminalRenderer.write (mkRenderer 1 5) "A\x1b[3;4r".toList)
      (mkRenderer 1 5)).scrollBottom = 3 ∧
    ¬((okD (TerminalRenderer.write (mkRenderer 1 5) "A\x1b[3;4r".toList)
        (mkRenderer 1 5)).insertLines 1).buffer.getD 1 [] =
      (okD (TerminalRenderer.write (mkRenderer 1 5) "A\x1b[3;4r".toList)
        (mkRenderer 1 5)).buffer.getD 1 [] := by
  decide

/-- C6, amended: scrollUp and scrollDown touch only rows inside
[scrollTop, scrollBottom] (provided the region is well formed); insertLines
and deleteLines, however, shift rows relative to the cursor row, not the
region top: insertLines touches only rows in [cursorY, max cursorY
scrollBottom] and deleteLines only rows in [min cursorY scrollBottom,
scrollBottom], which lie inside the scroll region only when scrollTop ≤
cursorY ≤ scrollBottom. -/
theorem C6_frame_amended (st : TerminalRenderer) (y : Nat) :
    (st.scrollTop ≤ st.scrollBottom → (y < st.scrollTop ∨ st.scrollBottom < y) →
      (st.scrollUp.buffer.getD y [] = st.buffer.getD y [] ∧
       st.scrollDown.buffer.getD y [] = st.buffer.getD y [])) ∧
    (∀ n, (y < st.cursorY ∨ (st.scrollBottom < y ∧ st.cursorY < y)) →
      (st.insertLines n).buffer.getD y [] = st.buffer.getD y []) ∧
    (∀ n, ((y < st.cursorY ∧ y ≠ st.scrollBottom) ∨ st.scrollBottom < y) →
      (st.deleteLines n).buffer.getD y [] = st.buffer.getD y []) := by
  refine ⟨?_, ?_, ?_⟩
  · intro hwf hy
    constructor
    · show (TerminalRenderer.scrollUp st).buffer.getD y [] = _
      unfold TerminalRenderer.scrollUp
      simp only
      rw [getD_set_ne _ _ _ (by omega),
        foldl_set_getD_notMem (fun b i => b.getD (i + 1) []) _ _ _ _
          (by rw [List.mem_range'_1]; omega)]
    · show (TerminalRenderer.scrollDown st).buffer.getD y [] = _
      unfold TerminalRenderer.scrollDown
      simp only
      rw [getD_set_ne _ _ _ (by omega),
        foldl_set_getD_notMem (fun b i => b.getD (i - 1) []) _ _ _ _
          (by rw [List.mem_reverse, List.mem_range'_1]; omega)]
  · have honce : ∀ (s : TerminalRenderer), (y < s.cursorY ∨ (s.scrollBottom < y ∧ s.cursorY < y)) →
        (TerminalRenderer.insertLineOnce s).buffer.getD y [] = s.buffer.getD y [] := by
      intro s hy
      unfold TerminalRenderer.insertLineOnce
      simp only
      rw [getD_set_ne _ _ _ (by omega),
        foldl_set_getD_notMem (fun b i => b.getD (i - 1) []) _ _ _ _
          (by rw [List.mem_reverse, List.mem_range'_1]; omega)]
    intro n hy
    induction n generalizing st with
    | zero => rfl
    | succ m ih =>
      show (TerminalRenderer.insertLines (TerminalRenderer.insertLineOnce st) m).buffer.getD y [] = _
      rw [ih (TerminalRenderer.insertLineOnce st) hy, honce st hy]
  · have honce : ∀ (s : TerminalRenderer), ((y < s.cursorY ∧ y ≠ s.scrollBottom) ∨ s.scrollBottom < y) →
        (TerminalRenderer.deleteLineOnce s).buffer.getD y [] = s.buffer.getD y [] := by
      intro s hy
      unfold TerminalRenderer.deleteLineOnce
      simp only
      rw [getD_set_ne _ _ _ (by omega),
        foldl_set_getD_notMem (fun b i => b.getD (i + 1) []) _ _ _ _
          (by rw [List.mem_range'_1]; omega)]
    intro n hy
    induction n generalizing st with
    | zero => rfl
    | succ m ih =>
      show (TerminalRenderer.deleteLines (TerminalRenderer.deleteLineOnce st) m).buffer.getD y [] = _
      rw [ih (TerminalRenderer.deleteLineOnce st) hy, honce st hy]

/-- C6, witness: the amended frame property evaluated on a concrete 2 by 4
screen with region rows 1..2 and the cursor at row 0: row 0 is untouched by
scrollUp and scrollDown, and row 3 is untouched by insertLines and
deleteLines. -/
theorem C6_witness :
    ((okD (TerminalRenderer.write (mkRenderer 2 4) "ab\x1b[2;3r".toList)
        (mkRenderer 2 4)).scrollUp.buffer.getD 0 [] =
      (okD (TerminalRenderer.write (mkRenderer 2 4) "ab\x1b[2;3r".toList)
        (mkRenderer 2 4)).buffer.getD 0 []) ∧
    (((okD (TerminalRenderer.write (mkRenderer 2 4) "ab\x1b[2;3r".toList)
        (mkRenderer 2 4)).insertLines 2).buffer.getD 3 [] =
      (okD (TerminalRenderer.write (mkRenderer 2 4) "ab\x1b[2;3r".toList)
        (mkRenderer 2 4)).buffer.getD 3 []) ∧
    (((okD (TerminalRenderer.write (mkRenderer 2 4) "ab\x1b[2;3r".toList)
        (mkRenderer 2 4)).deleteLines 1).buffer.getD 3 [] =
      (okD (TerminalRenderer.write (mkRenderer 2 4) "ab\x1b[2;3r".toList)
        (mkRenderer 2 4)).buffer.getD 3 []) :=
  ⟨((C6_frame_amended _ 0).1 (by decide) (by decide)).1,
   (C6_frame_amended _ 3).2.1 2 (by decide),
   (C6_frame_amended _ 3).2.2 1 (by decide)⟩

/-! ### Batcher lemmas -/

namespace TerminalOutputBuffer

theorem emitBatch_truncated_eq (s : TerminalOutputBuffer)
    (h1 : s.buffer ≠ []) (h2 : s.renderer.getScreen ≠ s.lastSentScreen)
    (h3 : s.truncateAt < s.renderer.getScreen.length) :
    emitBatch s =
      ({ s with buffer := [], lastSentScreen := s.renderer.getScreen,
                lastTruncatedOutput := some s.renderer.getScreen },
       some { text := s.renderer.getScreen.take s.truncateAt ++
                moreMarker (s.renderer.getScreen.length - s.truncateAt)
              truncated := true
              fullText := some s.renderer.getScreen
              threadId := s.threadId }) := by
  unfold emitBatch
  rw [if_neg (by simpa [List.isEmpty_iff] using h1)]
  simp only
  rw [if_neg (by simp only [List.isEmpty_iff]; intro hh; rw [hh] at h3; simp at h3),
    if_neg h2, if_neg (by omega)]

theorem append_ok_lastTrunc {ts : TimerSys} {s : TerminalOutputBuffer} {d : List Char}
    {q : TimerSys × TerminalOutputBuffer} (h : append ts s d = .ok q) :
    q.2.lastTruncatedOutput = s.lastTruncatedOutput := by
  unfold append at h
  split at h
  · exact absurd h (by simp)
  · injection h with hh
    rw [← hh]
    unfold scheduleBatch
    split
    · rfl
    · rfl

theorem append_ok_lastSent {ts : TimerSys} {s : TerminalOutputBuffer} {d : List Char}
    {q : TimerSys × TerminalOutputBuffer} (h : append ts s d = .ok q) :
    q.2.lastSentScreen = s.lastSentScreen := by
  unfold append at h
  split at h
  · exact absurd h (by simp)
  · injection h with hh
    rw [← hh]
    unfold scheduleBatch
    split
    · rfl
    · rfl

theorem scheduleBatch_some {ts : TimerSys} {b : TerminalOutputBuffer} {tid : Nat}
    (hb : b.batchTimer = some tid) : scheduleBatch ts b = (ts, b) := by
  unfold scheduleBatch
  rw [hb]

theorem scheduleBatch_none {ts : TimerSys} {b : TerminalOutputBuffer}
    (hb : b.batchTimer = none) :
    scheduleBatch ts b = ((setTimeout ts).2, { b with batchTimer := some (setTimeout ts).1 }) := by
  unfold scheduleBatch
  rw [hb]

theorem flush_some {ts : TimerSys} {s : TerminalOutputBuffer} {tid : Nat}
    (hb : s.batchTimer = some tid) :
    flush ts s =
      (if s.buffer.isEmpty then (clearTimeout ts tid, { s with batchTimer := none }, none)
       else (clearTimeout ts tid, (emitBatch { s with batchTimer := none }).1,
         (emitBatch { s with batchTimer := none }).2)) := by
  unfold flush
  rw [hb]

theorem flush_none {ts : TimerSys} {s : TerminalOutputBuffer}
    (hb : s.batchTimer = none) :
    flush ts s =
      (if s.buffer.isEmpty then (ts, s, none)
       else (ts, (emitBatch s).1, (emitBatch s).2)) := by
  unfold flush
  rw [hb]

theorem emitBatch_nontrunc_preserves (s : TerminalOutputBuffer)
    (hnt : ∀ e, (emitBatch s).2 = some e → e.truncated = false) :
    (emitBatch s).1.lastTruncatedOutput = s.lastTruncatedOutput := by
  unfold emitBatch at hnt ⊢
  by_cases hbe : s.buffer.isEmpty
  · rw [if_pos hbe]
  · rw [if_neg hbe] at hnt ⊢
    simp only at hnt ⊢
    by_cases hre : s.renderer.getScreen.isEmpty
    · rw [if_pos hre]
    · rw [if_neg hre] at hnt ⊢
      by_cases hdup : s.renderer.getScreen = s.lastSentScreen
      · rw [if_pos hdup]
      · rw [if_neg hdup] at hnt ⊢
        by_cases hlen : s.renderer.getScreen.length ≤ s.truncateAt
        · rw [if_pos hlen]
        · rw [if_neg hlen] at hnt ⊢
          exact absurd (hnt _ rfl) (by simp)

theorem flush_preserves_lastTrunc (ts : TimerSys) (s : TerminalOutputBuffer)
    (hnt : ∀ e, (flush ts s).2.2 = some e → e.truncated = false) :
    (flush ts s).2.1.lastTruncatedOutput = s.lastTruncatedOutput := by
  cases hb : s.batchTimer with
  | some tid =>
    rw [flush_some hb] at hnt ⊢
    by_cases hbe : s.buffer.isEmpty
    · rw [if_pos hbe]
    · rw [if_neg hbe] at hnt ⊢
      exact emitBatch_nontrunc_preserves _ hnt
  | none =>
    rw [flush_none hb] at hnt ⊢
    by_cases hbe : s.buffer.isEmpty
    · rw [if_pos hbe]
    · rw [if_neg hbe] at hnt ⊢
      exact emitBatch_nontrunc_preserves _ hnt

end TerminalOutputBuffer

/-! ### Claim C7 -/

/-- C7: a flush whose rendered screen is longer than truncateAt (given that
an emission happens at all: raw bytes are pending and the screen differs
from the last sent one) emits truncated = true, a text equal to the first
truncateAt characters followed by the marker naming exactly length -
truncateAt more characters, and fullText equal to the whole rendered
screen; afterwards the oversized-output query answers that full text, it
survives appends and non-truncating flushes, and the explicit clear resets
it to none. -/
theorem C7_truncation (ts : TimerSys) (s : TerminalOutputBuffer)
    (h1 : s.buffer ≠ []) (h2 : s.renderer.getScreen ≠ s.lastSentScreen)
    (h3 : s.truncateAt < s.renderer.getScreen.length) :
    (TerminalOutputBuffer.flush ts s).2.2 = some
      { text := s.renderer.getScreen.take s.truncateAt ++
          TerminalOutputBuffer.moreMarker (s.renderer.getScreen.length - s.truncateAt)
        truncated := true
        fullText := some s.renderer.getScreen
        threadId := s.threadId } ∧
    (TerminalOutputBuffer.flush ts s).2.1.getLastTruncatedOutput =
      some s.renderer.getScreen ∧
    (TerminalOutputBuffer.clearLastTruncatedOutput
      (TerminalOutputBuffer.flush ts s).2.1).getLastTruncatedOutput = none ∧
    (∀ ts2 d q, TerminalOutputBuffer.append ts2 (TerminalOutputBuffer.flush ts s).2.1 d = .ok q →
      q.2.getLastTruncatedOutput = some s.renderer.getScreen) ∧
    (∀ ts2, (∀ e, (TerminalOutputBuffer.flush ts2 (TerminalOutputBuffer.flush ts s).2.1).2.2 =
        some e → e.truncated = false) →
      (TerminalOutputBuffer.flush ts2 (TerminalOutputBuffer.flush ts s).2.1).2.1.getLastTruncatedOutput =
        some s.renderer.getScreen) := by
  have hmain : (TerminalOutputBuffer.flush ts s).2 =
      (({ s with buffer := [], batchTimer := none,
                 lastSentScreen := s.renderer.getScreen,
                 lastTruncatedOutput := some s.renderer.getScreen } : TerminalOutputBuffer),
       some { text := s.renderer.getScreen.take s.truncateAt ++
                TerminalOutputBuffer.moreMarker (s.renderer.getScreen.length - s.truncateAt)
              truncated := true
              fullText := some s.renderer.getScreen
              threadId := s.threadId }) := by
    cases hb : s.batchTimer with
    | some tid =>
      rw [TerminalOutputBuffer.flush_some hb,
        if_neg (by simpa [List.isEmpty_iff] using h1),
        TerminalOutputBuffer.emitBatch_truncated_eq { s with batchTimer := none } h1 h2 h3]
    | none =>
      rw [TerminalOutputBuffer.flush_none hb,
        if_neg (by simpa [List.isEmpty_iff] using h1),
        TerminalOutputBuffer.emitBatch_truncated_eq _ h1 h2 h3, ← hb]
  refine ⟨?_, ?_, ?_, ?_, ?_⟩
  · rw [show (TerminalOutputBuffer.flush ts s).2.2 = ((TerminalOutputBuffer.flush ts s).2).2 from rfl,
      hmain]
  · rw [show (TerminalOutputBuffer.flush ts s).2.1 = ((TerminalOutputBuffer.flush ts s).2).1 from rfl,
      hmain]
    rfl
  · rw [show (TerminalOutputBuffer.flush ts s).2.1 = ((TerminalOutputBuffer.flush ts s).2).1 from rfl,
      hmain]
    rfl
  · intro ts2 d q hq
    show q.2.lastTruncatedOutput = _
    rw [TerminalOutputBuffer.append_ok_lastTrunc hq]
    rw [show (TerminalOutputBuffer.flush ts s).2.1 = ((TerminalOutputBuffer.flush ts s).2).1 from rfl,
      hmain]
  · intro ts2 hnt
    show (TerminalOutputBuffer.flush ts2 (TerminalOutputBuffer.flush ts s).2.1).2.1.lastTruncatedOutput = _
    rw [TerminalOutputBuffer.flush_preserves_lastTrunc ts2 _ hnt]
    rw [show (TerminalOutputBuffer.flush ts s).2.1 = ((TerminalOutputBuffer.flush ts s).2).1 from rfl,
      hmain]

/-- C7, witness: a batcher with truncateAt = 3 whose renderer shows the
five-character screen hello emits the three-character prefix plus the
marker naming 2 more characters, stores the full text for the oversized
query, and the explicit clear empties it. -/
theorem C7_witness :
    (TerminalOutputBuffer.flush ⟨0, []⟩
        { threadId := "t", batchDelayMs := 500, truncateAt := 3, buffer := "x".toList,
          batchTimer := none, lastTruncatedOutput := none, lastSentScreen := [],
          renderer := okD (TerminalRenderer.write (mkRenderer 8 2) "hello".toList)
            (mkRenderer 8 2) }).2.2 = some
      { text := "hel".toList ++ TerminalOutputBuffer.moreMarker 2
        truncated := true
        fullText := some "hello".toList
        threadId := "t" } ∧
    (TerminalOutputBuffer.flush ⟨0, []⟩
        { threadId := "t", batchDelayMs := 500, truncateAt := 3, buffer := "x".toList,
          batchTimer := none, lastTruncatedOutput := none, lastSentScreen := [],
          renderer := okD (TerminalRenderer.write (mkRenderer 8 2) "hello".toList)
            (mkRenderer 8 2) }).2.1.getLastTruncatedOutput = some "hello".toList ∧
    (TerminalOutputBuffer.clearLastTruncatedOutput
      (TerminalOutputBuffer.flush ⟨0, []⟩
        { threadId := "t", batchDelayMs := 500, truncateAt := 3, buffer := "x".toList,
          batchTimer := none, lastTruncatedOutput := none, lastSentScreen := [],
          renderer := okD (TerminalRenderer.write (mkRenderer 8 2) "hello".toList)
            (mkRenderer 8 2) }).2.1).getLastTruncatedOutput = none := by
  have h := C7_truncation ⟨0, []⟩
    { threadId := "t", batchDelayMs := 500, truncateAt := 3, buffer := "x".toList,
      batchTimer := none, lastTruncatedOutput := none, lastSentScreen := [],
      renderer := okD (TerminalRenderer.write (mkRenderer 8 2) "hello".toList)
        (mkRenderer 8 2) } (by decide) (by decide) (by decide)
  refine ⟨?_, ?_, h.2.2.1⟩
  · rw [h.1]
    decide
  · rw [h.2.1]
    decide

/-! ### Claim C8 -/

theorem dropWhile_isEmpty_replicate_nil (n : Nat) :
    (List.replicate n ([] : List Char)).dropWhile List.isEmpty = [] := by
  induction n with
  | zero => rfl
  | succ m ih =>
    rw [List.replicate_succ, List.dropWhile_cons_of_pos (by decide)]
    exact ih

theorem dropTrailingEmpties_replicate_nil (n : Nat) :
    dropTrailingEmpties (List.replicate n []) = [] := by
  unfold dropTrailingEmpties
  rw [List.reverse_replicate, dropWhile_isEmpty_replicate_nil]
  rfl

theorem getScreen_blankBuffer (st : TerminalRenderer)
    (hb : st.buffer = List.replicate st.rows (blankRow st.cols)) :
    st.getScreen = [] := by
  unfold TerminalRenderer.getScreen
  have hmap : ((List.range st.rows).map fun y => trimEnd (st.buffer.getD y [])) =
      List.replicate st.rows [] := by
    apply List.ext_getElem
    · simp
    · intro i h1 h2
      simp only [List.getElem_map, List.getElem_range, List.getElem_replicate]
      rw [hb, getD_replicate _ _ _ _ (by simpa using h1)]
      exact trimEnd_blankRow st.cols
  rw [hmap, dropTrailingEmpties_replicate_nil]
  rfl

namespace TerminalOutputBuffer

theorem append_ok_dest {ts : TimerSys} {s : TerminalOutputBuffer} {d : List Char}
    {q : TimerSys × TerminalOutputBuffer} (h : append ts s d = .ok q) :
    ∃ r, TerminalRenderer.write s.renderer d = .ok r ∧
      q.2.buffer = s.buffer ++ d ∧ q.2.renderer = r ∧
      q.2.lastSentScreen = s.lastSentScreen := by
  unfold append at h
  split at h
  · exact absurd h (by simp)
  · next r heq =>
    injection h with hh
    refine ⟨r, heq, ?_, ?_, ?_⟩ <;>
      (rw [← hh]; unfold scheduleBatch; split) <;> rfl

theorem bufInv_emitBatch {s : TerminalOutputBuffer} (h : BufInv s) :
    BufInv (emitBatch s).1 := by
  unfold emitBatch
  by_cases hbe : s.buffer.isEmpty
  · rw [if_pos hbe]
    exact h
  · rw [if_neg hbe]
    simp only
    by_cases hre : s.renderer.getScreen.isEmpty
    · rw [if_pos hre]
      intro _
      left
      exact List.isEmpty_iff.mp hre
    · rw [if_neg hre]
      by_cases hdup : s.renderer.getScreen = s.lastSentScreen
      · rw [if_pos hdup]
        intro _
        right
        exact hdup.symm
      · rw [if_neg hdup]
        by_cases hlen : s.renderer.getScreen.length ≤ s.truncateAt
        · rw [if_pos hlen]
          intro _
          right
          rfl
        · rw [if_neg hlen]
          intro _
          right
          rfl

theorem bufInv_flush {ts : TimerSys} {s : TerminalOutputBuffer} (h : BufInv s) :
    BufInv (flush ts s).2.1 := by
  cases hb : s.batchTimer with
  | some tid =>
    rw [flush_some hb]
    by_cases hbe : s.buffer.isEmpty
    · rw [if_pos hbe]
      exact h
    · rw [if_neg hbe]
      exact bufInv_emitBatch h
  | none =>
    rw [flush_none hb]
    by_cases hbe : s.buffer.isEmpty
    · rw [if_pos hbe]
      exact h
    · rw [if_neg hbe]
      exact bufInv_emitBatch h

theorem bufInv_fireTimer {ts : TimerSys} {s : TerminalOutputBuffer} (h : BufInv s) :
    BufInv (fireTimer ts s).2.1 := by
  unfold fireTimer
  split
  · exact bufInv_emitBatch h
  · exact h

theorem bufInv_clear {ts : TimerSys} {s : TerminalOutputBuffer} :
    BufInv (clear ts s).2 := by
  unfold clear
  split
  · intro _
    left
    exact getScreen_blankBuffer _ rfl
  · intro _
    left
    exact getScreen_blankBuffer _ rfl

end TerminalOutputBuffer

theorem reachable_bufInv : ∀ {p : TimerSys × TerminalOutputBuffer},
    BatchReachable p → BufInv p.2 := by
  intro p h
  induction h with
  | init ts threadId batchDelayMs truncateAt =>
    intro _
    left
    exact getScreen_blankBuffer _ rfl
  | step_append hp heq ih =>
    obtain ⟨r, hw, hbuf, hrend, hls⟩ := TerminalOutputBuffer.append_ok_dest heq
    intro hnil
    rw [hbuf] at hnil
    obtain ⟨h1, h2⟩ := List.append_eq_nil.mp hnil
    rw [h2, TerminalRenderer.write_nil] at hw
    injection hw with hw
    rw [hrend, ← hw, hls]
    exact ih h1
  | step_flush hp ih => exact TerminalOutputBuffer.bufInv_flush ih
  | step_fire hp ih => exact TerminalOutputBuffer.bufInv_fireTimer ih
  | step_clear hp ih => exact TerminalOutputBuffer.bufInv_clear
  | step_clearTrunc hp ih => exact ih

theorem appendChain_lastSent : ∀ {p q : TimerSys × TerminalOutputBuffer},
    AppendChain p q → q.2.lastSentScreen = p.2.lastSentScreen := by
  intro p q h
  induction h with
  | refl => rfl
  | step hc heq ih =>
    rw [TerminalOutputBuffer.append_ok_lastSent heq, ih]

namespace TerminalOutputBuffer

theorem emitBatch_emits_none {s : TerminalOutputBuffer}
    (h : s.renderer.getScreen = s.lastSentScreen ∨ s.renderer.getScreen = []) :
    (emitBatch s).2 = none := by
  unfold emitBatch
  by_cases hbe : s.buffer.isEmpty
  · rw [if_pos hbe]
  · rw [if_neg hbe]
    simp only
    by_cases hre : s.renderer.getScreen.isEmpty
    · rw [if_pos hre]
    · cases h with
      | inl hdup => rw [if_neg hre, if_pos hdup]
      | inr hnil => exact absurd (by rw [hnil]; rfl) hre

theorem flush_emits_none {ts : TimerSys} {s : TerminalOutputBuffer}
    (h : s.renderer.getScreen = s.lastSentScreen ∨ s.renderer.getScreen = []) :
    (flush ts s).2.2 = none := by
  cases hb : s.batchTimer with
  | some tid =>
    rw [flush_some hb]
    by_cases hbe : s.buffer.isEmpty
    · rw [if_pos hbe]
    · rw [if_neg hbe]
      exact emitBatch_emits_none h
  | none =>
    rw [flush_none hb]
    by_cases hbe : s.buffer.isEmpty
    · rw [if_pos hbe]
    · rw [if_neg hbe]
      exact emitBatch_emits_none h

theorem emitBatch_sets_lastSent {s : TerminalOutputBuffer}
    (hne : ¬s.buffer.isEmpty = true) :
    (emitBatch s).1.lastSentScreen = s.renderer.getScreen ∨
      s.renderer.getScreen = [] := by
  unfold emitBatch
  rw [if_neg hne]
  simp only
  by_cases hre : s.renderer.getScreen.isEmpty
  · right
    exact List.isEmpty_iff.mp hre
  · rw [if_neg hre]
    by_cases hdup : s.renderer.getScreen = s.lastSentScreen
    · rw [if_pos hdup]
      left
      exact hdup.symm
    · rw [if_neg hdup]
      by_cases hlen : s.renderer.getScreen.length ≤ s.truncateAt
      · rw [if_pos hlen]
        left
        rfl
      · rw [if_neg hlen]
        left
        rfl

theorem flush_sets_lastSent {ts : TimerSys} {s : TerminalOutputBuffer} (hb : BufInv s) :
    (flush ts s).2.1.lastSentScreen = s.renderer.getScreen ∨
      s.renderer.getScreen = [] := by
  cases hbt : s.batchTimer with
  | some tid =>
    rw [flush_some hbt]
    by_cases hbe : s.buffer.isEmpty
    · rw [if_pos hbe]
      cases hb (List.isEmpty_iff.mp hbe) with
      | inl hnil => right; exact hnil
      | inr heq => left; exact heq
    · rw [if_neg hbe]
      exact emitBatch_sets_lastSent hbe
  | none =>
    rw [flush_none hbt]
    by_cases hbe : s.buffer.isEmpty
    · rw [if_pos hbe]
      cases hb (List.isEmpty_iff.mp hbe) with
      | inl hnil => right; exact hnil
      | inr heq => left; exact heq
    · rw [if_neg hbe]
      exact emitBatch_sets_lastSent hbe

end TerminalOutputBuffer

/-- C8: duplicate-frame suppression.  Starting from any reachable batcher
state, flush once, append any amount of raw data, and flush again: if the
rendered screen at the second flush is textually identical to the rendered
screen at the first, the second flush emits nothing — a flush whose
rendered text equals the recorded last-sent screen is a no-op emission-wise
regardless of how much data was appended in between. -/
theorem C8_duplicate_suppression (ts1 : TimerSys) (s1 : TerminalOutputBuffer)
    (hreach : BatchReachable (ts1, s1)) (ts2 : TimerSys) (s2 : TerminalOutputBuffer)
    (hchain : AppendChain ((TerminalOutputBuffer.flush ts1 s1).1,
      (TerminalOutputBuffer.flush ts1 s1).2.1) (ts2, s2))
    (hsame : s2.renderer.getScreen = s1.renderer.getScreen) :
    (TerminalOutputBuffer.flush ts2 s2).2.2 = none := by
  have hinv : BufInv s1 := reachable_bufInv hreach
  have hls := @TerminalOutputBuffer.flush_sets_lastSent ts1 s1 hinv
  have hchainls : s2.lastSentScreen =
      (TerminalOutputBuffer.flush ts1 s1).2.1.lastSentScreen :=
    appendChain_lastSent hchain
  apply TerminalOutputBuffer.flush_emits_none
  cases hls with
  | inl h =>
    left
    rw [hsame, hchainls, h]
  | inr h =>
    right
    rw [hsame, h]

/-- C8, witness: append two characters to a fresh batcher, flush (this
emits), then flush again with nothing in between: the screens of the two
flushes are identical and the second emits nothing. -/
theorem C8_witness :
    (TerminalOutputBuffer.flush
      (TerminalOutputBuffer.flush
        (okD (TerminalOutputBuffer.append ⟨0, []⟩ (mkOutputBuffer "t" 500 2000) "hi".toList)
          (⟨0, []⟩, mkOutputBuffer "t" 500 2000)).1
        (okD (TerminalOutputBuffer.append ⟨0, []⟩ (mkOutputBuffer "t" 500 2000) "hi".toList)
          (⟨0, []⟩, mkOutputBuffer "t" 500 2000)).2).1
      (TerminalOutputBuffer.flush
        (okD (TerminalOutputBuffer.append ⟨0, []⟩ (mkOutputBuffer "t" 500 2000) "hi".toList)
          (⟨0, []⟩, mkOutputBuffer "t" 500 2000)).1
        (okD (TerminalOutputBuffer.append ⟨0, []⟩ (mkOutputBuffer "t" 500 2000) "hi".toList)
          (⟨0, []⟩, mkOutputBuffer "t" 500 2000)).2).2.1).2.2 = none :=
  C8_duplicate_suppression
    (okD (TerminalOutputBuffer.append ⟨0, []⟩ (mkOutputBuffer "t" 500 2000) "hi".toList)
      (⟨0, []⟩, mkOutputBuffer "t" 500 2000)).1
    (okD (TerminalOutputBuffer.append ⟨0, []⟩ (mkOutputBuffer "t" 500 2000) "hi".toList)
      (⟨0, []⟩, mkOutputBuffer "t" 500 2000)).2
    (BatchReachable.step_append (BatchReachable.init ⟨0, []⟩ "t" 500 2000)
      (show TerminalOutputBuffer.append ⟨0, []⟩ (mkOutputBuffer "t" 500 2000) "hi".toList =
        .ok (okD (TerminalOutputBuffer.append ⟨0, []⟩ (mkOutputBuffer "t" 500 2000) "hi".toList)
          (⟨0, []⟩, mkOutputBuffer "t" 500 2000)) from rfl))
    _ _ (AppendChain.refl _) rfl

/-! ### Claim C2 -/

namespace TerminalRenderer

theorem putChar_no_wrap {st : TerminalRenderer} {c : Char}
    (hx : st.cursorX < st.cols) (hy : st.cursorY < st.rows) :
    putChar st c = { st with
      cursorX := st.cursorX + 1
      buffer := (st.buffer.set st.cursorY
        ((st.buffer.getD st.cursorY []).set st.cursorX c)) } := by
  simp only [putChar]
  rw [if_neg (show ¬st.cols ≤ st.cursorX by omega)]
  rw [if_pos (show st.cursorY < st.rows ∧ st.cursorX < st.cols from ⟨hy, hx⟩)]

/-- Writing a run of printable characters into a row that currently holds
the padded prefix w extends the prefix and advances the column. -/
theorem write_chars_into_row (l : List Char) : ∀ (w : List Char) (st : TerminalRenderer)
    (tail : List Char), (∀ c ∈ l, ' ' ≤ c) → st.cursorY < st.rows →
    st.cursorY < st.buffer.length → st.cursorX = w.length →
    w.length + l.length ≤ st.cols →
    st.buffer.getD st.cursorY [] = padRow st.cols w →
    write st (l ++ tail) =
      write { st with
        cursorX := w.length + l.length
        buffer := (st.buffer.set st.cursorY (padRow st.cols (w ++ l))) } tail := by
  induction l with
  | nil =>
    intro w st tail _ hy hylen hx hcap hrow
    rw [List.nil_append, List.append_nil]
    have hbuf : st.buffer.set st.cursorY (padRow st.cols w) = st.buffer := by
      rw [← hrow]
      exact set_getD_self _ _ _ hylen
    rw [hbuf, List.length_nil, Nat.add_zero, ← hx]
  | cons c ls ih =>
    intro w st tail hl hy hylen hx hcap hrow
    have hxcols : st.cursorX < st.cols := by
      simp only [List.length_cons] at hcap
      omega
    rw [List.cons_append, write_cons_printable _ (hl c (List.mem_cons_self c ls)),
      putChar_no_wrap hxcols hy]
    rw [ih (w ++ [c])
      { st with
        cursorX := st.cursorX + 1
        buffer := (st.buffer.set st.cursorY
          ((st.buffer.getD st.cursorY []).set st.cursorX c)) } tail
      (fun c2 hc2 => hl c2 (List.mem_cons_of_mem c hc2))
      hy
      (by simp only [List.length_set]; exact hylen)
      (by simp only [List.length_append, List.length_cons, List.length_nil]; omega)
      (by simp only [List.length_append, List.length_cons, List.length_nil] at hcap ⊢; omega)
      (by
        show (st.buffer.set st.cursorY _).getD st.cursorY [] = _
        rw [getD_set_self _ _ _ _ hylen, hrow, hx,
          padRow_set _ _ _ (by simp only [List.length_cons] at hcap; omega)])]
    congr 1
    simp only [List.length_append, List.length_cons, List.length_nil, List.set_set,
      List.append_assoc, List.cons_append, List.nil_append]
    rw [show w.length + (0 + 1) + ls.length = w.length + (ls.length + 1) from by omega]

/-- Writing one good line followed by CR LF advances the line abstraction
by pushLine: the screen keeps at most the last rows - 1 lines. -/
theorem writeLine_step {C R : Nat} {vs : List (List Char)} {st : TerminalRenderer}
    {l : List Char} (tail : List Char) (hR : 1 ≤ R) (hst : LineState C R vs st)
    (hgood : GoodLine C l) :
    ∃ st', write st (l ++ '\r' :: '\n' :: tail) = write st' tail ∧
      LineState C R (pushLine R vs l) st' := by
  obtain ⟨hcols, hrows, htop, hbot, hx, hy, hvslen, hblen, hrow⟩ := hst
  obtain ⟨hlne, hlcap, hlchars, hltrim⟩ := hgood
  have hyR : vs.length < R := by omega
  have hyrow : st.buffer.getD st.cursorY [] = padRow st.cols [] := by
    rw [hy, hrow vs.length hyR, if_neg (by omega), padRow_nil, hcols]
  have hchars := write_chars_into_row l [] st ('\r' :: '\n' :: tail)
    (fun c hc => (hlchars c hc).1) (by omega) (by omega) (by rw [hx]; rfl)
    (by simp only [List.length_nil]; omega) hyrow
  rw [List.nil_append] at hchars
  simp only [List.length_nil, Nat.zero_add] at hchars
  refine ⟨lineFeed { st with
      cursorX := 0
      buffer := (st.buffer.set st.cursorY (padRow st.cols l)) }, ?_, ?_⟩
  · rw [hchars, write_cons_cr, write_cons_lf]
  · unfold lineFeed
    dsimp only
    by_cases hcase : vs.length < R - 1
    · rw [if_neg (by rw [hbot, hy]; omega)]
      have hpush : pushLine R vs l = vs ++ [l] := by
        unfold pushLine
        rw [show vs.length + 1 - (R - 1) = 0 from by omega, List.drop_zero]
      rw [hpush]
      refine ⟨hcols, hrows, htop, hbot, rfl, ?_, ?_, ?_, ?_⟩
      · dsimp only
        rw [hy, List.length_append, List.length_cons, List.length_nil]
      · rw [List.length_append, List.length_cons, List.length_nil]
        omega
      · dsimp only
        rw [List.length_set]
        exact hblen
      · intro y hy2
        dsimp only
        rw [hy]
        by_cases hyy : y = vs.length
        · rw [hyy, getD_set_self _ _ _ _ (by omega),
            if_pos (by rw [List.length_append, List.length_cons, List.length_nil]; omega),
            List.getD_append_right _ _ _ _ (Nat.le_refl _), Nat.sub_self]
          rw [hcols]
          rfl
        · rw [getD_set_ne _ _ _ (fun hh => hyy hh.symm), hrow y hy2]
          by_cases hylt : y < vs.length
          · rw [if_pos hylt,
              if_pos (by rw [List.length_append, List.length_cons, List.length_nil]; omega),
              getD_append_left _ _ _ _ hylt]
          · rw [if_neg hylt,
              if_neg (by rw [List.length_append, List.length_cons, List.length_nil]; omega)]
    · have hfull : vs.length = R - 1 := by omega
      rw [if_pos (by rw [hbot, hy]; omega)]
      have hpush : pushLine R vs l = (vs ++ [l]).drop 1 := by
        unfold pushLine
        rw [show vs.length + 1 - (R - 1) = 1 from by omega]
      have hpushlen : (pushLine R vs l).length = R - 1 := by
        rw [hpush, List.length_drop, List.length_append, List.length_cons, List.length_nil]
        omega
      unfold scrollUp
      dsimp only
      rw [htop, hbot, Nat.sub_zero]
      have hflen : ((List.range' 0 (R - 1)).foldl
          (fun b y => b.set y (b.getD (y + 1) []))
          (st.buffer.set st.cursorY (padRow st.cols l))).length = R := by
        rw [foldl_set_length (fun b i => b.getD (i + 1) []), List.length_set]
        exact hblen
      refine ⟨hcols, hrows, rfl, rfl, rfl, ?_, ?_, ?_, ?_⟩
      · rw [hy, hfull, hpushlen]
      · rw [hpushlen]
      · rw [List.length_set, hflen]
      · intro y hy2
        by_cases hyy : y = R - 1
        · rw [hyy, getD_set_self _ _ _ _ (by rw [hflen]; omega),
            if_neg (by rw [hpushlen]; omega), hcols]
        · rw [getD_set_ne _ _ _ (fun hh => hyy hh.symm),
            foldl_shiftUp_getD [] (R - 1) 0 _
              (by rw [List.length_set]; omega) y [],
            if_pos (by omega)]
          rw [hy, hfull]
          by_cases hnext : y + 1 = R - 1
          · rw [hnext, getD_set_self _ _ _ _ (by omega),
              if_pos (by omega), hpush, getD_drop,
              List.getD_append_right _ _ _ _ (by omega)]
            rw [show 1 + y - vs.length = 0 from by omega, hcols]
            rfl
          · rw [getD_set_ne _ _ _ (fun hh => hnext hh.symm), hrow (y + 1) (by omega),
              if_pos (by omega), if_pos (by omega), hpush, getD_drop,
              getD_append_left _ _ _ _ (by omega),
              show 1 + y = y + 1 from by omega]

/-- Writing a whole CRLF-terminated stream of good lines folds pushLine
over the line abstraction, and the write succeeds. -/
theorem writeLines_lineState {C R : Nat} (hR : 1 ≤ R) :
    ∀ (ls vs : List (List Char)) (st : TerminalRenderer),
    LineState C R vs st → (∀ l ∈ ls, GoodLine C l) →
    ∃ st', write st (linesData ls) = .ok st' ∧
      LineState C R (ls.foldl (pushLine R) vs) st'
  | [], vs, st, hst, _ => by
    refine ⟨st, ?_, hst⟩
    rw [show linesData [] = [] from rfl, write_nil]
  | l :: rest, vs, st, hst, hgood => by
    obtain ⟨st1, heq, hst1⟩ :=
      writeLine_step (linesData rest) hR hst (hgood l (List.mem_cons_self _ _))
    obtain ⟨st2, heq2, hst2⟩ := writeLines_lineState hR rest (pushLine R vs l) st1 hst1
      (fun m hm => hgood m (List.mem_cons_of_mem _ hm))
    refine ⟨st2, ?_, ?_⟩
    · rw [show linesData (l :: rest) = l ++ '\r' :: '\n' :: linesData rest from rfl,
        heq, heq2]
    · rw [List.foldl_cons]
      exact hst2

/-- Folding pushLine keeps the suffix of the accumulated lines that fits
in R - 1 rows. -/
theorem foldl_pushLine (R : Nat) :
    ∀ (ls vs : List (List Char)), vs.length ≤ R - 1 →
    ls.foldl (pushLine R) vs = (vs ++ ls).drop (vs.length + ls.length - (R - 1))
  | [], vs, hvs => by
    rw [List.foldl_nil, List.append_nil, List.length_nil,
      show vs.length + 0 - (R - 1) = 0 from by omega, List.drop_zero]
  | l :: rest, vs, hvs => by
    rw [List.foldl_cons]
    have hlen : (pushLine R vs l).length ≤ R - 1 := by
      unfold pushLine
      rw [List.length_drop, List.length_append, List.length_cons, List.length_nil]
      omega
    rw [foldl_pushLine R rest (pushLine R vs l) hlen]
    unfold pushLine
    rw [← List.drop_append_of_le_length
      (show vs.length + 1 - (R - 1) ≤ (vs ++ [l]).length from by
        rw [List.length_append, List.length_cons, List.length_nil]; omega),
      List.drop_drop, List.append_assoc, List.singleton_append]
    congr 1
    rw [List.length_drop, List.length_append, List.length_cons, List.length_nil,
      List.length_cons]
    omega

/-- When the line abstraction fills the top rows - 1 rows with nonempty
already-trimmed lines, getScreen is exactly those lines joined by newlines:
the blank bottom row is trimmed away. -/
theorem getScreen_lineState {C R : Nat} {vs : List (List Char)} {st : TerminalRenderer}
    (hR : 1 ≤ R) (hst : LineState C R vs st) (hfull : vs.length = R - 1)
    (hvs : ∀ l ∈ vs, l ≠ [] ∧ trimEnd l = l) :
    st.getScreen = List.intercalate ['\n'] vs := by
  obtain ⟨hcols, hrows, htop, hbot, hx, hy, hvslen, hblen, hrow⟩ := hst
  have hmap : (List.range st.rows).map (fun y => trimEnd (st.buffer.getD y [])) =
      vs ++ [[]] := by
    apply List.ext_getElem
    · rw [List.length_map, List.length_range, List.length_append, List.length_cons,
        List.length_nil, hrows]
      omega
    · intro y h1 h2
      rw [List.getElem_map, List.getElem_range]
      rw [List.length_map, List.length_range] at h1
      rw [hrow y (by omega)]
      by_cases hylt : y < vs.length
      · rw [if_pos hylt, trimEnd_padRow, List.getElem_append_left hylt]
        have hmem : vs.getD y [] ∈ vs := by
          rw [List.getD_eq_getElem vs [] hylt]
          exact List.getElem_mem _
        rw [(hvs _ hmem).2, List.getD_eq_getElem vs [] hylt]
      · rw [if_neg hylt, trimEnd_blankRow,
          List.getElem_append_right (by omega)]
        rw [List.length_append, List.length_cons, List.length_nil] at h2
        have h0 : y - vs.length = 0 := by omega
        simp only [h0, List.getElem_cons_zero]
  unfold getScreen
  rw [hmap, dropTrailingEmpties_snoc_nil,
    dropTrailingEmpties_of_ne_nil vs (fun m hm => (hvs m hm).1)]

end TerminalRenderer

/-- C2, counterexample to the claim as stated: seven distinct non-empty
newline-terminated lines a..g written on a fresh 10 by 2 screen (rows = 2,
rows + 5 = 7 lines) leave the screen showing a single indented g line, not
the last two lines f and g: a bare line feed keeps the column, so each line
starts further right, and the final line feed scrolls everything but g away
before getScreen trims the blank bottom row. -/
theorem C2_counterexample :
    (TerminalRenderer.write (mkRenderer 10 2) "a\nb\nc\nd\ne\nf\ng\n".toList).isOk = true ∧
    (okD (TerminalRenderer.write (mkRenderer 10 2) "a\nb\nc\nd\ne\nf\ng\n".toList)
      (mkRenderer 10 2)).getScreen = "      g".toList ∧
    (okD (TerminalRenderer.write (mkRenderer 10 2) "a\nb\nc\nd\ne\nf\ng\n".toList)
      (mkRenderer 10 2)).getScreen ≠ "f\ng".toList := by
  decide

/-- C2, amended: writing any stream of CR-LF-terminated good lines (non-empty,
at most cols printable characters, no trailing whitespace) of length rows + 5
into a fresh screen succeeds and getScreen yields exactly the last rows - 1
lines in order, joined by newlines — one fewer than the claimed rows, because
the final line feed scrolls a blank row in at the bottom and the oldest
rows + 5 - (rows - 1) = 6 lines are discarded.  With bare \\n termination the
claim fails further: the carriage is never returned, so surviving lines keep
cumulative indentation. -/
theorem C2_last_lines_amended (C R : Nat) (ls : List (List Char))
    (hc : 1 ≤ C) (hr : 1 ≤ R) (hlen : ls.length = R + 5)
    (hgood : ∀ l ∈ ls, GoodLine C l) :
    ∃ st', TerminalRenderer.write (mkRenderer C R) (linesData ls) = .ok st' ∧
      st'.getScreen = List.intercalate ['\n'] (ls.drop 6) := by
  have hinit : LineState C R [] (mkRenderer C R) := by
    refine ⟨rfl, rfl, rfl, rfl, rfl, rfl, by simp, ?_, ?_⟩
    · exact List.length_replicate _ _
    · intro y hy
      rw [if_neg (by simp)]
      exact getD_replicate _ _ _ _ hy
  obtain ⟨st', heq, hst'⟩ :=
    TerminalRenderer.writeLines_lineState hr ls [] (mkRenderer C R) hinit hgood
  refine ⟨st', heq, ?_⟩
  rw [TerminalRenderer.foldl_pushLine R ls [] (by simp), List.nil_append,
    List.length_nil, Nat.zero_add, show ls.length - (R - 1) = 6 from by omega] at hst'
  have hfull : (ls.drop 6).length = R - 1 := by
    rw [List.length_drop]
    omega
  exact TerminalRenderer.getScreen_lineState hr hst' hfull
    (fun l hl => ⟨(hgood l (List.mem_of_mem_drop hl)).1,
      (hgood l (List.mem_of_mem_drop hl)).2.2.2⟩)

/-- C2, witness: the amended statement evaluated on a 4 by 2 screen with the
seven lines a..g; the screen afterwards is exactly the single line g that the
drop of the oldest six lines leaves. -/
theorem C2_witness :
    ∃ st', TerminalRenderer.write (mkRenderer 4 2)
        (linesData ["a".toList, "b".toList, "c".toList, "d".toList,
          "e".toList, "f".toList, "g".toList]) = .ok st' ∧
      st'.getScreen = List.intercalate ['\n']
        (["a".toList, "b".toList, "c".toList, "d".toList,
          "e".toList, "f".toList, "g".toList].drop 6) :=
  C2_last_lines_amended 4 2
    ["a".toList, "b".toList, "c".toList, "d".toList,
      "e".toList, "f".toList, "g".toList]
    (by decide) (by decide) (by decide) (by decide)

/-! ### Claim C9 -/

/-- C9: append schedules exactly one timer when none is pending and leaves
the pending timer (and the whole timer table) untouched otherwise: an
append arriving during the coalescing window neither allocates a second
timer nor reschedules the first, and only the first append after an idle
state allocates a timer, namely the next fresh id. -/
theorem C9_single_timer (ts : TimerSys) (st : TerminalOutputBuffer) (d : List Char)
    (q : TimerSys × TerminalOutputBuffer)
    (h : TerminalOutputBuffer.append ts st d = .ok q) :
    (∀ tid, st.batchTimer = some tid → q.1 = ts ∧ q.2.batchTimer = some tid) ∧
    (st.batchTimer = none → q.1.nextId = ts.nextId + 1 ∧
      q.1.active = ts.nextId :: ts.active ∧ q.2.batchTimer = some ts.nextId) := by
  unfold TerminalOutputBuffer.append at h
  split at h
  · exact absurd h (by simp)
  · next r heq =>
    injection h with hh
    constructor
    · intro tid htid
      rw [TerminalOutputBuffer.scheduleBatch_some
        (show ({ st with buffer := st.buffer ++ d, renderer := r } :
          TerminalOutputBuffer).batchTimer = some tid from htid)] at hh
      rw [← hh]
      exact ⟨rfl, htid⟩
    · intro hnone
      rw [TerminalOutputBuffer.scheduleBatch_none
        (show ({ st with buffer := st.buffer ++ d, renderer := r } :
          TerminalOutputBuffer).batchTimer = none from hnone)] at hh
      rw [← hh]
      exact ⟨rfl, rfl, rfl⟩

/-- C9, witness: one append on a fresh idle batcher allocates timer id 0
and a second append while it is pending changes nothing in the timer
table. -/
theorem C9_witness :
    (okD (TerminalOutputBuffer.append ⟨0, []⟩ (mkOutputBuffer "t" 500 2000) "a".toList)
      (⟨0, []⟩, mkOutputBuffer "t" 500 2000)).1.nextId = 1 ∧
    (okD (TerminalOutputBuffer.append ⟨0, []⟩ (mkOutputBuffer "t" 500 2000) "a".toList)
      (⟨0, []⟩, mkOutputBuffer "t" 500 2000)).1.active = [0] ∧
    (okD (TerminalOutputBuffer.append ⟨0, []⟩ (mkOutputBuffer "t" 500 2000) "a".toList)
      (⟨0, []⟩, mkOutputBuffer "t" 500 2000)).2.batchTimer = some 0 :=
  (C9_single_timer ⟨0, []⟩ (mkOutputBuffer "t" 500 2000) "a".toList _ rfl).2 rfl

/-! ### Claim C10 -/

theorem mapGet_mapSet_self (m : List (String × TerminalOutputBuffer)) (k : String)
    (v : TerminalOutputBuffer) : mapGet (mapSet m k v) k = some v := by
  unfold mapSet
  by_cases hany : (m.any fun p => p.1 == k) = true
  · rw [if_pos hany]
    induction m with
    | nil => simp at hany
    | cons q rest ih =>
      by_cases hq : (q.1 == k) = true
      · unfold mapGet
        rw [List.map_cons, if_pos hq, List.find?_cons_of_pos _ (by simp)]
        rfl
      · have hrest : (rest.any fun p => p.1 == k) = true := by
          rw [List.any_cons] at hany
          simpa [hq] using hany
        unfold mapGet at ih ⊢
        rw [List.map_cons, if_neg hq,
          show ((q :: List.map (fun p => if (p.1 == k) = true then (k, v) else p) rest).find?
              fun p => p.1 == k) =
            ((List.map (fun p => if (p.1 == k) = true then (k, v) else p) rest).find?
              fun p => p.1 == k) from List.find?_cons_of_neg _ hq]
        exact ih hrest
  · rw [if_neg hany]
    unfold mapGet
    rw [List.find?_append]
    have hnone : (m.find? fun p => p.1 == k) = none := by
      rw [List.find?_eq_none]
      intro p hp
      intro hpk
      exact hany (List.any_eq_true.mpr ⟨p, hp, hpk⟩)
    rw [hnone]
    simp

/-- C10: a second startCapture for a session id that already has a batcher
silently replaces it: the call returns no conflict indication and no
emission, the registry afterwards maps the id to a fresh batcher with no
pending timer, the old batcher is dropped without a final flush, and the
timer table is untouched, so a timer pending on the replaced batcher stays
scheduled and can still fire. -/
theorem C10_startCapture_replaces (ts : TimerSys) (oc : OutputCapture) (tid : String)
    (old : TerminalOutputBuffer) (t0 : Nat)
    (hold : mapGet oc.buffers tid = some old) (htimer : old.batchTimer = some t0) :
    (OutputCapture.startCapture ts oc tid).1 = ts ∧
    (OutputCapture.startCapture ts oc tid).2.2 = [] ∧
    mapGet (OutputCapture.startCapture ts oc tid).2.1.buffers tid =
      some (mkOutputBuffer tid oc.batchDelayMs oc.truncateAt) ∧
    (mkOutputBuffer tid oc.batchDelayMs oc.truncateAt).batchTimer = none ∧
    (t0 ∈ ts.active → t0 ∈ (OutputCapture.startCapture ts oc tid).1.active) :=
  ⟨rfl, rfl, mapGet_mapSet_self _ _ _, rfl, fun hmem => hmem⟩

/-- C10, witness: a registry holding a batcher for thread t with pending
timer id 5; startCapture for t keeps timer 5 scheduled and installs a fresh
timerless batcher. -/
theorem C10_witness :
    (OutputCapture.startCapture ⟨6, [5]⟩
      { buffers := [("t",
          { threadId := "t", batchDelayMs := 1, truncateAt := 2, buffer := "x".toList,
            batchTimer := some 5, lastTruncatedOutput := none, lastSentScreen := [],
            renderer := mkRenderer 1 1 })], batchDelayMs := 500, truncateAt := 2000 }
      "t").1 = ⟨6, [5]⟩ ∧
    (OutputCapture.startCapture ⟨6, [5]⟩
      { buffers := [("t",
          { threadId := "t", batchDelayMs := 1, truncateAt := 2, buffer := "x".toList,
            batchTimer := some 5, lastTruncatedOutput := none, lastSentScreen := [],
            renderer := mkRenderer 1 1 })], batchDelayMs := 500, truncateAt := 2000 }
      "t").2.2 = [] ∧
    mapGet (OutputCapture.startCapture ⟨6, [5]⟩
      { buffers := [("t",
          { threadId := "t", batchDelayMs := 1, truncateAt := 2, buffer := "x".toList,
            batchTimer := some 5, lastTruncatedOutput := none, lastSentScreen := [],
            renderer := mkRenderer 1 1 })], batchDelayMs := 500, truncateAt := 2000 }
      "t").2.1.buffers "t" = some (mkOutputBuffer "t" 500 2000) ∧
    (5 ∈ ([5] : List Nat) → 5 ∈ (OutputCapture.startCapture ⟨6, [5]⟩
      { buffers := [("t",
          { threadId := "t", batchDelayMs := 1, truncateAt := 2, buffer := "x".toList,
            batchTimer := some 5, lastTruncatedOutput := none, lastSentScreen := [],
            renderer := mkRenderer 1 1 })], batchDelayMs := 500, truncateAt := 2000 }
      "t").1.active) := by
  have h := C10_startCapture_replaces ⟨6, [5]⟩
    { buffers := [("t",
        { threadId := "t", batchDelayMs := 1, truncateAt := 2, buffer := "x".toList,
          batchTimer := some 5, lastTruncatedOutput := none, lastSentScreen := [],
          renderer := mkRenderer 1 1 })], batchDelayMs := 500, truncateAt := 2000 }
    "t"
    { threadId := "t", batchDelayMs := 1, truncateAt := 2, buffer := "x".toList,
      batchTimer := some 5, lastTruncatedOutput := none, lastSentScreen := [],
      renderer := mkRenderer 1 1 } 5 (by decide) rfl
  exact ⟨h.1, h.2.1, h.2.2.1, h.2.2.2.2⟩

end SlackTerm
